import Mathlib

/-!
# WhisperDesktop, `TranscribeDlg.cpp`

A shallow embedding of the transcribe dialog controller of
`Examples/WhisperDesktop/TranscribeDlg.cpp`:

* the duplicate-segment guard in `TranscribeDlg::newSegmentCallback`,
* the result writers `writeSubRip` and `writeWebVTT`,
* the time-field parsing and the button state machine of `onTranscribe`,
* the duration formatter `printTime`.

Strings are Lean strings, `size_t`/`uint32_t` values are natural numbers with
the wrap-around written out where the source can wrap, and the mutable dialog
members touched by the code are fields of the record `Dlg`, threaded through
the functions.
-/

namespace TranscribeDlg

/-! ## Data model -/

/-- Run state of the dialog, `enum struct TranscribeDlg::eVisualState`. -/
inductive eVisualState where
  | Idle
  | Running
  | Stopping
deriving DecidableEq, Repr

/-- Output format, `enum struct TranscribeDlg::eOutputFormat : uint8_t`; the
values are the 0-based indices of the combobox items, and the handler casts
the selection of the combobox, whatever it is, to this type. -/
abbrev eOutputFormat := Nat

/-- `eOutputFormat::None`. -/
def eOutputFormat.None : eOutputFormat := 0

/-- `eOutputFormat::Text`. -/
def eOutputFormat.Text : eOutputFormat := 1

/-- `eOutputFormat::TextTimestamps`. -/
def eOutputFormat.TextTimestamps : eOutputFormat := 2

/-- `eOutputFormat::SubRip`. -/
def eOutputFormat.SubRip : eOutputFormat := 3

/-- `eOutputFormat::WebVTT`. -/
def eOutputFormat.WebVTT : eOutputFormat := 4

/-- Modelled from the spec: the bit of a token's flag word that marks a
"special" (non-lexical) token, `Whisper::eTokenFlags::Special`; the enum is
declared in the engine's API header, which is not part of this file. -/
def eTokenFlags.Special : Nat := 1

/-- A token of the result, `Whisper::sToken`: only the members read here. -/
structure sToken where
  text : String
  flags : Nat
deriving DecidableEq, Repr

/-- A segment of the result, `Whisper::sSegment`: its text, its time span in
100-nanosecond ticks, and the range of its tokens in the token array. -/
structure sSegment where
  text : String
  timeBegin : Nat
  timeEnd : Nat
  firstToken : Nat
  countTokens : Nat
deriving DecidableEq, Repr

/-- What `iTranscribeResult` hands out: `getSegments()` with
`getSize().countSegments` entries, and `getTokens()`. -/
structure TranscribeResult where
  segments : List sSegment
  tokens : List sToken
deriving DecidableEq, Repr

/-- Modelled from the spec: `sTimeSpanFields::fullSeconds`, the start time in
whole seconds, of a time span given in 100-nanosecond ticks; the structure is
declared in the engine's API header, which is not part of this file. -/
def fullSeconds (ticks : Nat) : Nat := ticks / 10000000

/-- A number printed with `%u`: the decimal text of a 32-bit unsigned value. -/
def formatU (n : Nat) : String :=
  toString (n % 4294967296)

/-- The duplicate tracker kept in `appState`: `currentResult`,
`duplicatedResults` and `duplicatedSecond`. -/
structure Tracker where
  currentResult : String
  duplicatedResults : List String
  duplicatedSecond : Nat
deriving DecidableEq, Repr

/-- The `logInfo` calls of `newSegmentCallback`, in the order they are made. -/
inductive LogEvent where
  | same (count : Nat) (str : String)
  | forceStop
  | sameTimeFinal (second : Nat)
  | sameTimeBegin (second : Nat)
deriving DecidableEq, Repr

/-- The members of the dialog that the modelled functions read or write:
`transcribeArgs.visualState`, the window text of the `transcribeStartTime`
edit box, the enabled flag and caption of `transcribeButton`, the pending
flag set by `setPending`, the number of `work.post()` calls, the messages
given to `transcribeError`, the media path, format, output path and parsed
custom times of `transcribeArgs`, the duplicate tracker of `appState`, and
the log. -/
structure Dlg where
  visualState : eVisualState
  startTimeText : String
  buttonEnabled : Bool
  buttonText : String
  pending : Bool
  posted : Nat
  errors : List String
  pathMedia : String
  format : eOutputFormat
  pathOutput : String
  customStartTimeMillis : Int
  customEndTimeMillis : Int
  app : Tracker
  log : List LogEvent
deriving DecidableEq, Repr

/-- Subtraction of two `size_t` values (each below `2 ^ 64`): the difference
modulo `2 ^ 64`. -/
def sizeSub (a b : Nat) : Nat :=
  if b ≤ a then a - b else a + 2 ^ 64 - b

/-! ## The duplicate-segment guard: `newSegmentCallback` -/

/-- The inner loop of `newSegmentCallback`: for `j` from `0` to
`seg.countTokens - 1` the text of token `seg.firstToken + j` (a `uint32_t`
sum) is appended to `str` unless the token has the `Special` flag. A read
past the end of the token array, undefined in the source, appends nothing. -/
def decodeTokens (tokens : List sToken) (seg : sSegment) (str : String) : String :=
  (List.range seg.countTokens).foldl
    (fun acc j =>
      match tokens[(seg.firstToken + j) % 4294967296]? with
      | some tok => if tok.flags &&& eTokenFlags.Special ≠ 0 then acc else acc ++ tok.text
      | none => acc)
    str

/-- One pass of the outer loop of `newSegmentCallback` for segment `seg`. The
first component is the local `str`, which is declared before the loop and is
carried from one pass to the next. -/
def segmentStep (tokens : List sToken) (p : String × Dlg) (seg : sSegment) : String × Dlg :=
  let str := decodeTokens tokens seg p.1
  let st := p.2
  if str ≠ st.app.currentResult then
    (str, { st with app := { duplicatedResults := [], currentResult := str, duplicatedSecond := 0 } })
  else
    let app1 : Tracker :=
      if st.app.duplicatedResults.length = 0 then
        { st.app with duplicatedSecond := fullSeconds seg.timeBegin }
      else st.app
    let app2 : Tracker := { app1 with duplicatedResults := app1.duplicatedResults ++ [str] }
    let log1 := st.log ++ [LogEvent.same app2.duplicatedResults.length str]
    if app2.duplicatedResults.length > 15 then
      (str, { st with
                app := app2
                log := log1 ++ [LogEvent.forceStop,
                                LogEvent.sameTimeFinal (fullSeconds seg.timeBegin),
                                LogEvent.sameTimeBegin app2.duplicatedSecond]
                startTimeText := formatU (fullSeconds seg.timeBegin)
                visualState := eVisualState.Stopping })
    else
      (str, { st with app := app2, log := log1 })

/-- `TranscribeDlg::newSegmentCallback( ctx, n_new )`, where `result` is what
`ctx->getResults` returns: the loop runs over the segments `len - n_new`
(a `size_t` difference) to `len - 1`, starting with an empty `str`. The
console output of `logNewSegments` is not modelled. -/
def newSegmentCallback (result : TranscribeResult) (n_new : Nat) (st : Dlg) : Dlg :=
  let len := result.segments.length
  let i := sizeSub len n_new
  ((result.segments.drop i).foldl (segmentStep result.tokens) ("", st)).2

/-- The engine delivering the segments `segs` one at a time: before each call
one more segment is appended to the result (`done` holds the earlier ones) and
`newSegmentCallback` is called with `n_new = 1`. -/
def feedOneByOne (tokens : List sToken) : List sSegment → List sSegment → Dlg → Dlg
  | _, [], st => st
  | done, seg :: rest, st =>
    feedOneByOne tokens (done ++ [seg]) rest
      (newSegmentCallback { segments := done ++ [seg], tokens := tokens } 1 st)

/-- Number of `force stop!` log lines, one per stop request of the guard. -/
def stopRequests (log : List LogEvent) : Nat :=
  log.count LogEvent.forceStop

/-- A dialog in state `Running` with a fresh tracker and nothing logged. -/
def runningDlg : Dlg :=
  { visualState := eVisualState.Running
    startTimeText := ""
    buttonEnabled := true
    buttonText := "Stop"
    pending := true
    posted := 1
    errors := []
    pathMedia := "a.wav"
    format := eOutputFormat.None
    pathOutput := ""
    customStartTimeMillis := 0
    customEndTimeMillis := 0
    app := { currentResult := "", duplicatedResults := [], duplicatedSecond := 0 }
    log := [] }

/-- A segment made of the single token `k`, starting at second `sec`. -/
def oneTokenSegment (k sec : Nat) : sSegment :=
  { text := "", timeBegin := sec * 10000000, timeEnd := (sec + 1) * 10000000,
    firstToken := k, countTokens := 1 }

/-! ## The result writers: `writeSubRip` and `writeWebVTT` -/

/-- What a writer leaves behind: the chunks handed to `file.Write`, in order,
and `overrun = some i` when the loop went on to read `segments[ i ]` with `i`
past the end of the array. That read is undefined in the source; the model
stops there and keeps what had been written. -/
structure Written where
  file : List String
  overrun : Option Nat
deriving DecidableEq, Repr

/-- Modelled from the spec: the UTF-8 byte-order mark written by
`writeUtf8Bom`, a helper that is not part of this file; the character U+FEFF
is the bytes EF BB BF in UTF-8. -/
def utf8Bom : String := "\uFEFF"

/-- Modelled from the spec: `writeUtf8Bom( file )`, a helper that is not part
of this file, writes the byte-order mark. -/
def writeUtf8Bom (file : List String) : List String :=
  file ++ [utf8Bom]

/-- The helper `write( file, line )`: an empty line is not written. Write
errors of the file are not modelled. -/
def write (file : List String) (line : String) : List String :=
  if line.length > 0 then file ++ [line] else file

/-- The helper `skipBlank`: the text after its leading spaces and tabs. -/
def skipBlank (rsi : String) : String :=
  String.mk (rsi.toList.dropWhile (fun c => c = ' ' ∨ c = '\t'))

/-- A number printed with `%02d`. -/
def pad2 (n : Nat) : String :=
  if n < 10 then "0" ++ toString n else toString n

/-- A number printed with `%03d`. -/
def pad3 (n : Nat) : String :=
  if n < 10 then "00" ++ toString n else if n < 100 then "0" ++ toString n else toString n

/-- Modelled from the spec: the three-argument overload
`printTime( rdi, time, comma )` used by the subtitle writers, which is not
part of this file: the absolute time stamp `HH:MM:SS,mmm` for SubRip
(`comma` set) and `HH:MM:SS.mmm` for WebVTT, appended to `rdi`. -/
def printTimeStamp (rdi : String) (ticks : Nat) (comma : Bool) : String :=
  rdi ++ pad2 (ticks / 36000000000) ++ ":" ++ pad2 (ticks / 600000000 % 60) ++ ":"
    ++ pad2 (ticks / 10000000 % 60) ++ (if comma then "," else ".")
    ++ pad3 (ticks % 10000000 / 10000)

/-- The `line` that `writeSubRip` builds for segment `i`. -/
def subRipCue (i : Nat) (seg : sSegment) : String :=
  let line := toString (i + 1) ++ "\r\n"
  let line := printTimeStamp line seg.timeBegin true
  let line := line ++ " --> "
  let line := printTimeStamp line seg.timeEnd true
  let line := line ++ "\r\n"
  let line := line ++ skipBlank seg.text
  line ++ "\r\n\r\n"

/-- The loop of `writeSubRip`, at index `i` with `rest` the part of the array
from `i` on: it runs while `i < bound`, where `bound` is `length - dupLines`. -/
def subRipLoop (bound : Nat) : Nat → List sSegment → List String → Written
  | i, [], file =>
    if i < bound then { file := file, overrun := some i } else { file := file, overrun := none }
  | i, seg :: rest, file =>
    if i < bound then
      if '(' ∈ seg.text.toList then subRipLoop bound (i + 1) rest file
      else subRipLoop bound (i + 1) rest (write file (subRipCue i seg))
    else { file := file, overrun := none }

/-- `TranscribeDlg::writeSubRip( segments, length, dupLines, file )`. The
array is `none` for a null pointer, and `length` is its length, as in the one
call, from `transcribe`. The log lines are not modelled. -/
def writeSubRip (segments : Option (List sSegment)) (dupLines : Nat) (file : List String) :
    Written :=
  match segments with
  | none => { file := file, overrun := none }
  | some segs =>
    let file := writeUtf8Bom file
    if sizeSub segs.length dupLines ≤ 0 then { file := file, overrun := none }
    else subRipLoop (sizeSub segs.length dupLines) 0 segs file

/-- The `line` that `writeWebVTT` builds for a segment. -/
def webVTTCue (seg : sSegment) : String :=
  let line := ""
  let line := printTimeStamp line seg.timeBegin false
  let line := line ++ " --> "
  let line := printTimeStamp line seg.timeEnd false
  let line := line ++ "\r\n"
  let line := line ++ skipBlank seg.text
  line ++ "\r\n\r\n"

/-- `TranscribeDlg::writeWebVTT( segments, length, file )`, with `length` the
length of the array. -/
def writeWebVTT (segments : List sSegment) (file : List String) : List String :=
  let file := writeUtf8Bom file
  let file := write file "WEBVTT\r\n\r\n"
  segments.foldl (fun f seg => write f (webVTTCue seg)) file

/-- The cue number a SubRip reader finds at the start of a cue: the value of
its leading run of decimal digits, if there is one. -/
def cueIndex (cue : String) : Option Nat :=
  let ds := cue.toList.takeWhile Char.isDigit
  if ds = [] then none else some (ds.foldl (fun v c => 10 * v + (c.toNat - 48)) 0)

/-- A segment with the given text, lasting from second `sec` to the next. -/
def textSegment (text : String) (sec : Nat) : sSegment :=
  { text := text, timeBegin := sec * 10000000, timeEnd := (sec + 1) * 10000000,
    firstToken := 0, countTokens := 0 }

/-! ## Parsing of the time fields in `onTranscribe` -/

/-- The value of a run of decimal digits. -/
def digitsValue (ds : List Char) : Nat :=
  ds.foldl (fun v c => 10 * v + (c.toNat - 48)) 0

/-- `std::stoi` on a run of decimal digits: the value when it fits an `int`;
otherwise `std::out_of_range` is thrown, here `none`. -/
def stoi (ds : List Char) : Option Int :=
  if digitsValue ds ≤ 2147483647 then some (digitsValue ds : Int) else none

/-- The value of an `int` expression reduced to 32 bits, two's complement. -/
def wrapInt (x : Int) : Int :=
  (x + 2147483648) % 4294967296 - 2147483648

/-- Product of two `int` values. -/
def imul (a b : Int) : Int := wrapInt (a * b)

/-- Sum of two `int` values. -/
def iadd (a b : Int) : Int := wrapInt (a + b)

/-- `std::regex_match` of a text against `(\d+):(\d+):(\d+)\.(\d+)`: the four
digit groups when the whole text has this form. -/
def matchTime (s : List Char) : Option (List Char × List Char × List Char × List Char) :=
  let h := s.takeWhile Char.isDigit
  match s.dropWhile Char.isDigit with
  | ':' :: r1 =>
    let m := r1.takeWhile Char.isDigit
    match r1.dropWhile Char.isDigit with
    | ':' :: r2 =>
      let sec := r2.takeWhile Char.isDigit
      match r2.dropWhile Char.isDigit with
      | '.' :: r3 =>
        let f := r3.takeWhile Char.isDigit
        if r3.dropWhile Char.isDigit = [] ∧ h ≠ [] ∧ m ≠ [] ∧ sec ≠ [] ∧ f ≠ [] then
          some (h, m, sec, f)
        else none
      | _ => none
    | _ => none
  | _ => none

/-- The C runtime's `_ttoi`: leading white space is skipped, then an optional
sign and the longest run of decimal digits are read (`0` when there is none);
a value outside `int` is clamped to `INT_MAX` or `INT_MIN`. -/
def ttoi (s : List Char) : Int :=
  match s.dropWhile (fun c => c = ' ' ∨ c = '\t' ∨ c = '\n' ∨ c = '\x0b' ∨ c = '\x0c' ∨ c = '\r') with
  | '-' :: t => max (-(digitsValue (t.takeWhile Char.isDigit) : Int)) (-2147483648)
  | '+' :: t => min (digitsValue (t.takeWhile Char.isDigit) : Int) 2147483647
  | t => min (digitsValue (t.takeWhile Char.isDigit) : Int) 2147483647

/-- The fraction group of a matched time scaled as in `onTranscribe`: as it
is for three digits, times 10 for two, times 100 for one, and `0` for any
other length, where `std::stoi` is not called. -/
def parseMilli (f : List Char) : Option Int :=
  if f.length = 3 then stoi f
  else if f.length = 2 then (stoi f).map (fun v => imul v 10)
  else if f.length = 1 then (stoi f).map (fun v => imul v 100)
  else some 0

/-- The parsing that `onTranscribe` applies to the text of the start-time
field, and again to that of the end-time field: the value stored in
`customStartTimeMillis` (`customEndTimeMillis`), or `none` when `std::stoi`
throws. -/
def parseTimeField (text : String) : Option Int :=
  match matchTime text.toList with
  | some (h, m, s, f) =>
    match stoi h, stoi m, stoi s, parseMilli f with
    | some hour, some min, some sec, some milli =>
      some (iadd (iadd (iadd (imul (imul (imul hour 60) 60) 1000) (imul (imul min 60) 1000))
        (imul sec 1000)) (imul milli 100))
    | _, _, _, _ => none
  | none => some (imul (ttoi text.toList) 1000)

/-- The fraction scaled as the specification words it: the fraction digits
times 100 for one digit, times 10 for two, times 1 for three. -/
def scaledFraction (f : List Char) : Nat :=
  if f.length = 1 then digitsValue f * 100
  else if f.length = 2 then digitsValue f * 10
  else if f.length = 3 then digitsValue f
  else 0

/-- The text `H:M:S.fraction` made of four digit groups. -/
def timeText (h m s f : List Char) : String :=
  String.mk (h ++ ':' :: (m ++ ':' :: (s ++ '.' :: f)))

/-! ## The duration formatter `printTime` -/

/-- Modelled from the spec: `Whisper::sTimeSpanFields`, a time span of
100-nanosecond ticks split into days, hours, minutes, seconds and the
remaining ticks; the structure is declared in the engine's API header, which
is not part of this file. -/
structure sTimeSpanFields where
  days : Nat
  hours : Nat
  minutes : Nat
  seconds : Nat
  ticks : Nat
deriving DecidableEq, Repr

/-- Modelled from the spec: the conversion of `Whisper::sTimeSpan`, a
`uint64_t` count of ticks, to `sTimeSpanFields`. -/
def sTimeSpanFields.ofTicks (tt : Nat) : sTimeSpanFields :=
  { ticks := tt % 10000000
    seconds := tt / 10000000 % 60
    minutes := tt / 10000000 / 60 % 60
    hours := tt / 10000000 / 60 / 60 % 24
    days := tt / 10000000 / 60 / 60 / 24 }

/-- The quotient `a / b` rounded to the nearest integer, a tie to the even
one. -/
def roundDivEven (a b : Nat) : Nat :=
  if 2 * (a % b) < b then a / b
  else if b < 2 * (a % b) then a / b + 1
  else if a / b % 2 = 0 then a / b else a / b + 1

/-- The exponent `e` for which the binary64 quotient of `ticks` by `1E7` is
`m / 2 ^ e` with a 53-bit `m`, for `0 < ticks < 2 ^ 53`: the least `e` with
`2 ^ 52 ≤ ticks * 2 ^ e / 1E7`. -/
def quotientExponent (ticks : Nat) : Nat :=
  ((List.range 77).find? (fun e => 10000000 * 2 ^ 52 ≤ ticks * 2 ^ e)).getD 0

/-- The number of thousandths that `%.3f` prints for `(double)ticks / 1E7`,
for `ticks < 2 ^ 53`: the binary64 quotient is `ticks / 1E7` rounded to 53
significant bits, and the C runtime rounds the exact value of that quotient to
three decimals; both roundings are to nearest, ties to even. -/
def secondsThousandths (ticks : Nat) : Nat :=
  if ticks = 0 then 0
  else
    roundDivEven (roundDivEven (ticks * 2 ^ quotientExponent ticks) 10000000 * 1000)
      (2 ^ quotientExponent ticks)

/-- The static `printTime( rdi, ticks )` with `ticks` an `int64_t`: the text is
appended to `rdi`. -/
def printTime (rdi : String) (ticks : Int) : String :=
  let fields := sTimeSpanFields.ofTicks (ticks % 18446744073709551616).toNat
  if fields.days ≠ 0 then
    rdi ++ toString fields.days ++ " days, " ++ toString fields.hours ++ " hours"
  else if fields.hours ||| fields.minutes ≠ 0 then
    rdi ++ pad2 fields.hours ++ ":" ++ pad2 fields.minutes ++ ":" ++ pad2 fields.seconds
  else
    rdi ++ toString (secondsThousandths ticks.toNat / 1000) ++ "."
      ++ pad3 (secondsThousandths ticks.toNat % 1000) ++ " seconds"

/-- The decimal digit `d` as a character. -/
def digit (d : Nat) : Char := Char.ofNat (48 + d)

/-- The duration text as the specification words it, for the fields of a tick
count: days and hours when days is nonzero; else zero-padded `HH:MM:SS` when
hours or minutes is nonzero; else the seconds with three decimals, `th` being
their number of thousandths. -/
def durationText (f : sTimeSpanFields) (th : Nat) : String :=
  if f.days ≠ 0 then toString f.days ++ " days, " ++ toString f.hours ++ " hours"
  else if f.hours ≠ 0 ∨ f.minutes ≠ 0 then
    String.mk [digit (f.hours / 10), digit (f.hours % 10), ':',
               digit (f.minutes / 10), digit (f.minutes % 10), ':',
               digit (f.seconds / 10), digit (f.seconds % 10)]
  else
    toString (th / 1000) ++ String.mk ['.', digit (th / 100 % 10), digit (th / 10 % 10),
      digit (th % 10)] ++ " seconds"

/-! ## The button handler `onTranscribe` -/

/-- What `onTranscribe` reads from the controls and the environment when the
button is pressed: the text of the media path box, whether that file exists,
the answer of `isInvalidTranslate`, the selection of the format combobox, the
texts of the end-time and output path boxes, whether the output file exists,
the answers to the two message boxes, and the output path that the renaming
with a numbered suffix produces, `none` when `std::stoi` throws on the number
found in the file name. The text of the start-time box is
`Dlg.startTimeText`. -/
structure UiInput where
  sourceMediaPath : String
  mediaExists : Bool
  invalidTranslate : Bool
  outFormatSel : Int
  endTimeText : String
  outputPath : String
  outputExists : Bool
  answerAddSuffix : Bool
  answerOverwrite : Bool
  renamedOutputPath : Option String
deriving DecidableEq, Repr

/-- `transcribeError( text )`: the message is reported to the user. -/
def transcribeError (st : Dlg) (text : String) : Dlg :=
  { st with errors := st.errors ++ [text] }

/-- The `switch` at the head of `onTranscribe`: `some st` when the handler
returns from one of its cases with the dialog `st`, `none` when no case
applies and control goes on to the validation below it. -/
def stopSwitch (st : Dlg) : Option Dlg :=
  match st.visualState with
  | eVisualState.Running =>
    some { st with visualState := eVisualState.Stopping, buttonEnabled := false }
  | eVisualState.Stopping => some st
  | eVisualState.Idle => none

/-- The end of `onTranscribe`, reached when the input is accepted:
`setPending( true )`, the state becomes `Running`, the button reads `Stop`
and the work item is posted. The settings saved to the registry are not
modelled. -/
def postRun (st : Dlg) : Dlg :=
  { st with pending := true
            visualState := eVisualState.Running
            buttonText := "Stop"
            posted := st.posted + 1 }

/-- The handling of an output file that is already there, once the user has
not declined both message boxes: when the numbered suffix was asked for, the
output path is replaced by the renamed one, and the result is `none` when
`std::stoi` throws on the number in the file name; otherwise the file is to be
overwritten and the path stays. -/
def renameOutput (ui : UiInput) (st : Dlg) : Option Dlg :=
  if ui.outputExists ∧ ui.answerAddSuffix then
    ui.renamedOutputPath.map (fun p => { st with pathOutput := p })
  else some st

/-- The part of `onTranscribe` below the `switch`: validation of the input,
parsing of the two time fields, then the start of the run. The result is
`none` when `std::stoi` throws, in the renaming of the output file or while a
time field is parsed. -/
def startRun (ui : UiInput) (st : Dlg) : Option Dlg :=
  let st := { st with pathMedia := ui.sourceMediaPath }
  if st.pathMedia.length ≤ 0 then
    some (transcribeError st "Please select an input audio file")
  else if ¬ ui.mediaExists then
    some (transcribeError st "Input audio file does not exist")
  else if ui.invalidTranslate then
    some st
  else
    let st := { st with format := (ui.outFormatSel % 256).toNat }
    if st.format ≠ eOutputFormat.None then
      let st := { st with pathOutput := ui.outputPath }
      if st.pathOutput.length ≤ 0 then
        some (transcribeError st "Please select an output text file")
      else if ui.outputExists ∧ ¬ ui.answerAddSuffix ∧ ¬ ui.answerOverwrite then
        some st
      else
        match renameOutput ui st with
        | none => none
        | some st =>
          match parseTimeField st.startTimeText with
          | none => none
          | some startMillis =>
            let st := { st with customStartTimeMillis := startMillis }
            match parseTimeField ui.endTimeText with
            | none => none
            | some endMillis =>
              some (postRun { st with customEndTimeMillis := endMillis })
    else
      some (postRun st)

/-- `TranscribeDlg::onTranscribe()`, the handler of the transcribe button. -/
def onTranscribe (ui : UiInput) (st : Dlg) : Option Dlg :=
  match stopSwitch st with
  | some st1 => some st1
  | none => startRun ui st

/-- The run states the dialog goes through when the button is pressed once
for each entry of `uis`, starting with the state before the first press; the
trace ends where a press does not return. -/
def pressTrace : List UiInput → Dlg → List eVisualState
  | [], st => [st.visualState]
  | ui :: rest, st =>
    match onTranscribe ui st with
    | some st1 => st.visualState :: pressTrace rest st1
    | none => [st.visualState]

/-- Number of steps of a trace that go from `Running` to `Stopping`. -/
def runningToStopping : List eVisualState → Nat
  | eVisualState.Running :: eVisualState.Stopping :: rest =>
    runningToStopping (eVisualState.Stopping :: rest) + 1
  | _ :: rest => runningToStopping rest
  | [] => 0

/-- The number of `work.post()` calls and the dialog after the button was
pressed once for each entry of `uis`, or `none` where a press does not
return. -/
def pressAll : List UiInput → Dlg → Option Dlg
  | [], st => some st
  | ui :: rest, st =>
    match onTranscribe ui st with
    | some st1 => pressAll rest st1
    | none => none

/-- Some input of the button handler: an existing media file, no output. -/
def someInput : UiInput :=
  { sourceMediaPath := "a.wav", mediaExists := true, invalidTranslate := false,
    outFormatSel := 0, endTimeText := "", outputPath := "", outputExists := false,
    answerAddSuffix := false, answerOverwrite := false, renamedOutputPath := some "" }

/-! ## Sample inputs -/

/-- Three tokens: the texts `a` and `b`, and a special token. -/
def sampleTokens : List sToken :=
  [{ text := "a", flags := 0 }, { text := "b", flags := 0 },
   { text := "[_EOT_]", flags := 1 }]

/-- The `n` segments of a run stuck on the text `a`: each is the token `a`
alone, and they start at the seconds 10, 11, 12 and so on. -/
def repeatedSegments (n : Nat) : List sSegment :=
  (List.range n).map (fun j => oneTokenSegment 0 (10 + j))

/-- A running dialog whose tracker already holds the text `a`, with an empty
repeat list. -/
def trackingDlg : Dlg :=
  { runningDlg with app := { currentResult := "a", duplicatedResults := [], duplicatedSecond := 0 } }

/-- A result of two segments, each the token `a`. -/
def twoEqualSegmentResult : TranscribeResult :=
  { segments := [oneTokenSegment 0 10, oneTokenSegment 0 11], tokens := sampleTokens }

/-- A result of two segments, the token `a` then the token `b`. -/
def twoSegmentResult : TranscribeResult :=
  { segments := [oneTokenSegment 0 10, oneTokenSegment 1 11], tokens := sampleTokens }

/-- A segment without tokens, starting at second `sec`; it decodes to the
empty text. -/
def noTokenSegment (sec : Nat) : sSegment :=
  { text := "", timeBegin := sec * 10000000, timeEnd := (sec + 1) * 10000000,
    firstToken := 0, countTokens := 0 }

/-- A result of two segments, the token `a` then a segment without tokens. -/
def tokenThenEmptyResult : TranscribeResult :=
  { segments := [oneTokenSegment 0 10, noTokenSegment 11], tokens := sampleTokens }

/-- Three segments, the second one a bracketed noise annotation. -/
def sampleSegments : List sSegment :=
  [textSegment " hello" 1, textSegment " (music)" 2, textSegment "\tbye" 3661]

/-! ## The encoder callback, the end of a run, and the events of a session -/

/-- `HRESULT`, a signed 32-bit status code. -/
abbrev HRESULT := Int

/-- `S_OK`: continue normally. -/
def S_OK : HRESULT := 0

/-- `S_FALSE`: stop now. -/
def S_FALSE : HRESULT := 1

/-- `E_NOT_VALID_STATE`, which is `HRESULT_FROM_WIN32( ERROR_INVALID_STATE )`,
the code 0x8007139F: invalid because not running. -/
def E_NOT_VALID_STATE : HRESULT := -2147019873

/-- `FAILED( hr )`: the code is negative. -/
def FAILED (hr : HRESULT) : Bool := decide (hr < 0)

/-- `TranscribeDlg::encoderBeginCallback( ctx, user_data )`, with `dlg` the
dialog that `user_data` points to. The `default` case of the source,
`E_UNEXPECTED`, is for a value outside the enumeration, of which
`eVisualState` has none. -/
def encoderBeginCallback (dlg : Dlg) : HRESULT :=
  match dlg.visualState with
  | eVisualState.Idle => E_NOT_VALID_STATE
  | eVisualState.Running => S_OK
  | eVisualState.Stopping => S_FALSE

/-- What `onCallbackStatus` receives when a run has ended: the status code in
`wParam`, the error text, the media duration and the processing time in
ticks, and the text that `%g` gives for their ratio. -/
structure RunOutcome where
  hr : HRESULT
  errorMessage : String
  mediaDuration : Int
  elapsed : Int
  speedText : String
deriving DecidableEq, Repr

/-- `TranscribeDlg::onCallbackStatus`, the handler of `WM_CALLBACK_STATUS`:
the dialog afterwards, and the text of the message box shown after a run that
did not fail. -/
def onCallbackStatus (o : RunOutcome) (st : Dlg) : Dlg × Option String :=
  let st := { st with pending := false, buttonText := "Transcribe", buttonEnabled := true }
  let prematurely := decide (st.visualState = eVisualState.Stopping)
  let st := { st with visualState := eVisualState.Idle }
  if FAILED o.hr then
    if o.errorMessage.length > 0 then
      (transcribeError st ("Transcribe failed" ++ "\n" ++ o.errorMessage), none)
    else
      (transcribeError st "Transcribe failed", none)
  else
    let message :=
      if prematurely then "Transcribed an initial portion of the audio"
      else "Transcribed the audio"
    let message := message ++ "\nMedia duration: "
    let message := printTime message o.mediaDuration
    let message := message ++ "\nProcessing time: "
    let message := printTime message o.elapsed
    let message := message ++ "\nRelative processing speed: "
    let message := message ++ o.speedText
    (st, some message)

/-- A dialog together with the number of `WM_CALLBACK_STATUS` messages it has
handled, one per run that has ended. -/
structure Session where
  dlg : Dlg
  completed : Nat
deriving DecidableEq, Repr

/-- The runs in flight: work items posted whose end has not been handled. -/
def Session.inFlight (s : Session) : Nat :=
  s.dlg.posted - s.completed

/-- What can happen to a dialog: the button is pressed, the engine reports new
segments during a run, or the end of a run is reported. -/
inductive Event where
  | press (ui : UiInput)
  | newSegments (result : TranscribeResult) (n_new : Nat)
  | completion (o : RunOutcome)
deriving DecidableEq, Repr

/-- Whether an event is the end of a run. -/
def Event.isCompletion : Event → Bool
  | Event.completion _ => true
  | _ => false

/-- One step of a session. The engine calls back, and a run ends, only while a
run is in flight; a step is `none` where the event cannot happen or the
handler does not return. -/
def step (s : Session) : Event → Option Session
  | Event.press ui => (onTranscribe ui s.dlg).map (fun d => { s with dlg := d })
  | Event.newSegments result n_new =>
    if 0 < s.inFlight then some { s with dlg := newSegmentCallback result n_new s.dlg }
    else none
  | Event.completion o =>
    if 0 < s.inFlight then
      some { dlg := (onCallbackStatus o s.dlg).1, completed := s.completed + 1 }
    else none

/-- The session after a sequence of events, if every step is possible. -/
def runEvents : Session → List Event → Option Session
  | s, [] => some s
  | s, e :: es =>
    match step s e with
    | some s1 => runEvents s1 es
    | none => none

/-- The single-in-flight invariant: no more runs have ended than were posted,
at most one run is in flight, and the state is `Idle` exactly when none is. -/
def singleInFlight (s : Session) : Prop :=
  s.completed ≤ s.dlg.posted ∧ s.inFlight ≤ 1 ∧
    (s.dlg.visualState = eVisualState.Idle ↔ s.inFlight = 0)

/-- A dialog at rest: `Idle`, nothing posted, a fresh tracker. -/
def idleDlg : Dlg :=
  { runningDlg with visualState := eVisualState.Idle, buttonText := "Transcribe",
                    pending := false, posted := 0 }

/-- A session at rest. -/
def idleSession : Session :=
  { dlg := idleDlg, completed := 0 }

/-- A run that ended without failure. -/
def someOutcome : RunOutcome :=
  { hr := 0, errorMessage := "", mediaDuration := 25000000, elapsed := 10000000,
    speedText := "2.5" }

/-- An input of the button handler with no media path and the SubRip format
selected. -/
def badInput : UiInput :=
  { someInput with sourceMediaPath := "", outFormatSel := 3 }

/-! # Theorems

## The duplicate-segment guard (C1 to C4) -/

theorem sizeSub_succ_one (n : Nat) : sizeSub (n + 1) 1 = n := by
  simp [sizeSub]

/-- A callback for one new segment runs the loop body once, on the last
segment of the result, with an empty `str`. -/
theorem newSegmentCallback_single (tokens : List sToken) (done : List sSegment) (seg : sSegment)
    (st : Dlg) :
    newSegmentCallback { segments := done ++ [seg], tokens := tokens } 1 st
      = (segmentStep tokens ("", st) seg).2 := by
  simp [newSegmentCallback, sizeSub_succ_one]

/-- A pass whose text differs from the tracked text resets the tracker and
touches nothing else. -/
theorem segmentStep_differ (tokens : List sToken) (seg : sSegment) (str : String) (st : Dlg)
    (h : decodeTokens tokens seg str ≠ st.app.currentResult) :
    segmentStep tokens (str, st) seg
      = (decodeTokens tokens seg str,
          { st with app := { duplicatedResults := [],
                             currentResult := decodeTokens tokens seg str,
                             duplicatedSecond := 0 } }) := by
  simp [segmentStep, h]

theorem segmentStep_match_current (tokens : List sToken) (seg : sSegment) (str : String)
    (st : Dlg) (h : decodeTokens tokens seg str = st.app.currentResult) :
    (segmentStep tokens (str, st) seg).2.app.currentResult = st.app.currentResult := by
  simp only [segmentStep, h]
  split_ifs <;> simp_all

theorem segmentStep_match_length (tokens : List sToken) (seg : sSegment) (str : String)
    (st : Dlg) (h : decodeTokens tokens seg str = st.app.currentResult) :
    (segmentStep tokens (str, st) seg).2.app.duplicatedResults.length
      = st.app.duplicatedResults.length + 1 := by
  simp only [segmentStep, h]
  split_ifs <;> simp_all

theorem segmentStep_match_second (tokens : List sToken) (seg : sSegment) (str : String)
    (st : Dlg) (h : decodeTokens tokens seg str = st.app.currentResult) :
    (segmentStep tokens (str, st) seg).2.app.duplicatedSecond
      = if st.app.duplicatedResults.length = 0 then fullSeconds seg.timeBegin
        else st.app.duplicatedSecond := by
  simp only [segmentStep, h]
  split_ifs <;> simp_all

theorem segmentStep_match_state (tokens : List sToken) (seg : sSegment) (str : String) (st : Dlg)
    (h : decodeTokens tokens seg str = st.app.currentResult) :
    (segmentStep tokens (str, st) seg).2.visualState
      = if 15 ≤ st.app.duplicatedResults.length then eVisualState.Stopping
        else st.visualState := by
  simp only [segmentStep, h]
  split_ifs <;> simp_all <;> omega

theorem segmentStep_match_text (tokens : List sToken) (seg : sSegment) (str : String) (st : Dlg)
    (h : decodeTokens tokens seg str = st.app.currentResult) :
    (segmentStep tokens (str, st) seg).2.startTimeText
      = if 15 ≤ st.app.duplicatedResults.length then formatU (fullSeconds seg.timeBegin)
        else st.startTimeText := by
  simp only [segmentStep, h]
  split_ifs <;> simp_all <;> omega

theorem segmentStep_match_stops (tokens : List sToken) (seg : sSegment) (str : String) (st : Dlg)
    (h : decodeTokens tokens seg str = st.app.currentResult) :
    stopRequests (segmentStep tokens (str, st) seg).2.log
      = stopRequests st.log + (if 15 ≤ st.app.duplicatedResults.length then 1 else 0) := by
  simp only [segmentStep, h, stopRequests]
  split_ifs <;> simp_all [List.count_append, List.count_cons, List.count_singleton] <;> omega

theorem feedOneByOne_cons (tokens : List sToken) (done : List sSegment) (seg : sSegment)
    (rest : List sSegment) (st : Dlg) :
    feedOneByOne tokens done (seg :: rest) st
      = feedOneByOne tokens (done ++ [seg]) rest (segmentStep tokens ("", st) seg).2 := by
  simp [feedOneByOne, newSegmentCallback_single]

theorem feedOneByOne_append (tokens : List sToken) :
    ∀ (xs ys done : List sSegment) (st : Dlg),
      feedOneByOne tokens done (xs ++ ys) st
        = feedOneByOne tokens (done ++ xs) ys (feedOneByOne tokens done xs st) := by
  intro xs
  induction xs with
  | nil => intro ys done st; simp [feedOneByOne]
  | cons x xs ih =>
    intro ys done st
    rw [List.cons_append, feedOneByOne_cons, feedOneByOne_cons, ih]
    simp

/-- Feeding segments that all decode to the tracked text `T`, one per call:
the tracked text stays, the repeat list grows by one entry per segment, the
state is `Stopping` as soon as the list has 16 entries, and every segment
that finds 15 or more entries logs one stop request. -/
theorem feedOneByOne_match (tokens : List sToken) (T : String) :
    ∀ (segs done : List sSegment) (st : Dlg),
      st.app.currentResult = T →
      (∀ seg ∈ segs, decodeTokens tokens seg "" = T) →
      (feedOneByOne tokens done segs st).app.currentResult = T ∧
      (feedOneByOne tokens done segs st).app.duplicatedResults.length
        = st.app.duplicatedResults.length + segs.length ∧
      (feedOneByOne tokens done segs st).visualState
        = (if 0 < segs.length ∧ 16 ≤ st.app.duplicatedResults.length + segs.length
            then eVisualState.Stopping else st.visualState) ∧
      stopRequests (feedOneByOne tokens done segs st).log
        = stopRequests st.log
          + ((st.app.duplicatedResults.length + segs.length - 15)
              - (st.app.duplicatedResults.length - 15)) := by
  intro segs
  induction segs with
  | nil => intro done st h _; simp [feedOneByOne, h]
  | cons seg rest ih =>
    intro done st hcur hall
    have hseg : decodeTokens tokens seg "" = st.app.currentResult := by
      rw [hcur]; exact hall seg (List.mem_cons_self _ _)
    have hrest : ∀ s ∈ rest, decodeTokens tokens s "" = T :=
      fun s hs => hall s (List.mem_cons_of_mem _ hs)
    have hvis := segmentStep_match_state tokens seg "" st hseg
    have hstop := segmentStep_match_stops tokens seg "" st hseg
    have hcur1 : (segmentStep tokens ("", st) seg).2.app.currentResult = T := by
      rw [segmentStep_match_current tokens seg "" st hseg]; exact hcur
    have hlen1 := segmentStep_match_length tokens seg "" st hseg
    obtain ⟨h1, h2, h3, h4⟩ := ih (done ++ [seg]) (segmentStep tokens ("", st) seg).2 hcur1 hrest
    rw [feedOneByOne_cons]
    refine ⟨h1, ?_, ?_, ?_⟩
    · rw [h2, hlen1, List.length_cons]; omega
    · rw [h3, hlen1, hvis, List.length_cons]
      split_ifs <;> first | rfl | omega
    · rw [h4, hlen1, hstop, List.length_cons]
      split_ifs <;> omega

/-- While the repeat list is not empty, matching segments leave the
repeat-start second as it is. -/
theorem feedOneByOne_match_second (tokens : List sToken) (T : String) :
    ∀ (segs done : List sSegment) (st : Dlg),
      st.app.currentResult = T →
      (∀ seg ∈ segs, decodeTokens tokens seg "" = T) →
      st.app.duplicatedResults.length ≠ 0 →
      (feedOneByOne tokens done segs st).app.duplicatedSecond = st.app.duplicatedSecond := by
  intro segs
  induction segs with
  | nil => intro done st _ _ _; simp [feedOneByOne]
  | cons seg rest ih =>
    intro done st hcur hall hne
    have hseg : decodeTokens tokens seg "" = st.app.currentResult := by
      rw [hcur]; exact hall seg (List.mem_cons_self _ _)
    have hrest : ∀ s ∈ rest, decodeTokens tokens s "" = T :=
      fun s hs => hall s (List.mem_cons_of_mem _ hs)
    have hcur1 : (segmentStep tokens ("", st) seg).2.app.currentResult = T := by
      rw [segmentStep_match_current tokens seg "" st hseg]; exact hcur
    have hlen1 := segmentStep_match_length tokens seg "" st hseg
    rw [feedOneByOne_cons, ih (done ++ [seg]) _ hcur1 hrest (by rw [hlen1]; omega),
      segmentStep_match_second tokens seg "" st hseg, if_neg hne]

/-- C1 as the spec states it fails: a running dialog with a fresh tracker is
fed 16 consecutive segments that all decode to `a`; the first one only makes
`a` the tracked text, the repeat list ends with 15 entries, no stop request is
made and the state is still `Running`. -/
theorem C1_sixteen_segments_do_not_stop :
    (feedOneByOne sampleTokens [] (repeatedSegments 16) runningDlg).visualState
        = eVisualState.Running ∧
      stopRequests (feedOneByOne sampleTokens [] (repeatedSegments 16) runningDlg).log = 0 ∧
      (feedOneByOne sampleTokens [] (repeatedSegments 16) runningDlg).app.duplicatedResults.length
        = 15 ∧
      ¬ (feedOneByOne sampleTokens [] (repeatedSegments 16) runningDlg).visualState
          = eVisualState.Stopping := by
  decide

/-- C1, amended: a running dialog with an empty repeat list is fed segments
that all decode to the same text `T`, one per call. If the tracked text
differs from `T`, the state is `Stopping` exactly when at least 17 segments
were fed, and the number of stop requests is the number of segments beyond
the 16th: 17 segments make exactly one request, at the 17th, and 16 make none.
If the tracked text is `T` already, the counts are 16 and 15. -/
theorem C1_duplicate_guard_threshold (tokens : List sToken) (T : String)
    (segs done : List sSegment) (st : Dlg)
    (hrun : st.visualState = eVisualState.Running)
    (hempty : st.app.duplicatedResults = [])
    (hall : ∀ seg ∈ segs, decodeTokens tokens seg "" = T) :
    (st.app.currentResult ≠ T →
      (feedOneByOne tokens done segs st).visualState
          = (if 17 ≤ segs.length then eVisualState.Stopping else eVisualState.Running) ∧
        stopRequests (feedOneByOne tokens done segs st).log
          = stopRequests st.log + (segs.length - 16)) ∧
    (st.app.currentResult = T →
      (feedOneByOne tokens done segs st).visualState
          = (if 16 ≤ segs.length then eVisualState.Stopping else eVisualState.Running) ∧
        stopRequests (feedOneByOne tokens done segs st).log
          = stopRequests st.log + (segs.length - 15)) := by
  constructor
  · intro hne
    cases segs with
    | nil => simp [feedOneByOne, hrun]
    | cons seg rest =>
      have hseg : decodeTokens tokens seg "" ≠ st.app.currentResult := by
        rw [hall seg (List.mem_cons_self _ _)]; exact fun h => hne h.symm
      have hrest : ∀ s ∈ rest, decodeTokens tokens s "" = T :=
        fun s hs => hall s (List.mem_cons_of_mem _ hs)
      have hstep := segmentStep_differ tokens seg "" st hseg
      obtain ⟨_, _, h3, h4⟩ := feedOneByOne_match tokens T rest (done ++ [seg])
        (segmentStep tokens ("", st) seg).2
        (by rw [hstep]; exact hall seg (List.mem_cons_self _ _)) hrest
      rw [feedOneByOne_cons, h3, h4, hstep]
      simp only [List.length_nil, List.length_cons, hrun]
      constructor
      · split_ifs <;> first | rfl | omega
      · omega
  · intro heq
    obtain ⟨_, _, h3, h4⟩ := feedOneByOne_match tokens T segs done st heq hall
    rw [h3, h4, hempty, hrun]
    simp only [List.length_nil]
    constructor
    · split_ifs <;> first | rfl | omega
    · omega

/-- C1, amended, at 17 segments of text `a` fed to a fresh running dialog: the
state ends as `Stopping` after exactly one stop request. -/
theorem C1_duplicate_guard_threshold_witness :
    runningDlg.visualState = eVisualState.Running ∧
      runningDlg.app.currentResult ≠ "a" ∧
      (feedOneByOne sampleTokens [] (repeatedSegments 17) runningDlg).visualState
        = eVisualState.Stopping ∧
      stopRequests (feedOneByOne sampleTokens [] (repeatedSegments 17) runningDlg).log = 1 :=
  ⟨by decide, by decide,
    (C1_duplicate_guard_threshold sampleTokens "a" (repeatedSegments 17) [] runningDlg
      (by decide) (by decide) (by decide)).1 (by decide)⟩

/-- The reset where it works: for every tracker state, a pass of the loop of
`newSegmentCallback` in which `str`, as decoded so far, differs from the
tracked text leaves the repeat list empty, `str` as the tracked text and the
repeat-start second 0; for a callback of one new segment, where `str` starts
empty, `str` is the segment's own decoded text. -/
theorem guard_reset_single_segment (tokens : List sToken) (done : List sSegment)
    (seg : sSegment) (str : String) (st : Dlg)
    (h : decodeTokens tokens seg str ≠ st.app.currentResult) :
    (segmentStep tokens (str, st) seg).2.app
        = { currentResult := decodeTokens tokens seg str, duplicatedResults := [],
            duplicatedSecond := 0 } ∧
      (str = "" →
        (newSegmentCallback { segments := done ++ [seg], tokens := tokens } 1 st).app
          = { currentResult := decodeTokens tokens seg "", duplicatedResults := [],
              duplicatedSecond := 0 }) := by
  constructor
  · rw [segmentStep_differ tokens seg str st h]
  · intro hs
    subst hs
    rw [newSegmentCallback_single, segmentStep_differ tokens seg "" st h]

/-- The reset after a long repeat run, one segment per call: the tracker holds
`a` with 17 repeats when a segment with the text `b` arrives; the repeat list
is emptied at once. -/
theorem guard_reset_single_segment_example :
    (feedOneByOne sampleTokens [] (repeatedSegments 17) trackingDlg).app.duplicatedResults.length
        = 17 ∧
      (newSegmentCallback
          { segments := repeatedSegments 17 ++ [oneTokenSegment 1 40], tokens := sampleTokens } 1
          (feedOneByOne sampleTokens [] (repeatedSegments 17) trackingDlg)).app
        = { currentResult := "b", duplicatedResults := [], duplicatedSecond := 0 } :=
  ⟨by decide,
    (guard_reset_single_segment sampleTokens (repeatedSegments 17) (oneTokenSegment 1 40) ""
      (feedOneByOne sampleTokens [] (repeatedSegments 17) trackingDlg) (by decide)).2 rfl⟩

/-- C2 fails on the code: `str` is declared before the loop over the new
segments and is never emptied. The tracker holds `a` with an empty repeat
list, and one callback delivers two new segments, the token `a` and then a
segment without tokens. After the first the repeat list is `[a]`. The second
decodes to the empty text, which differs from the tracked `a`, but it is
compared as `a`, the text carried over: the repeat list is not emptied, it
grows to two entries, and the tracked text and the repeat-start second stay.
When the second segment is the token `b` instead, the list is emptied but the
tracked text becomes `ab`, not `b`, the decoded text of that segment. -/
theorem C2_reset_missed_after_first_new_segment :
    decodeTokens sampleTokens (noTokenSegment 11) "" = "" ∧
      (segmentStep sampleTokens ("", trackingDlg) (oneTokenSegment 0 10)).2.app
        = { currentResult := "a", duplicatedResults := ["a"], duplicatedSecond := 10 } ∧
      (newSegmentCallback tokenThenEmptyResult 2 trackingDlg).app
        = { currentResult := "a", duplicatedResults := ["a", "a"], duplicatedSecond := 10 } ∧
      ¬ (newSegmentCallback tokenThenEmptyResult 2 trackingDlg).app.duplicatedResults = [] ∧
      decodeTokens sampleTokens (oneTokenSegment 1 11) "" = "b" ∧
      (newSegmentCallback twoSegmentResult 2 trackingDlg).app
        = { currentResult := "ab", duplicatedResults := [], duplicatedSecond := 0 } := by
  decide

/-- C3 as the spec states it fails: the tracker holds `a` and 16 matching
segments starting at the seconds 10 to 25 arrive; the guard stops the run,
the first-seen repeat second is 10, and the text written to the start-time
field is `25`, the start second of the last segment. -/
theorem C3_restart_point_is_not_first_repeat_second :
    (feedOneByOne sampleTokens [] (repeatedSegments 16) trackingDlg).visualState
        = eVisualState.Stopping ∧
      (feedOneByOne sampleTokens [] (repeatedSegments 16) trackingDlg).app.duplicatedSecond = 10 ∧
      (feedOneByOne sampleTokens [] (repeatedSegments 16) trackingDlg).startTimeText = "25" ∧
      ¬ (feedOneByOne sampleTokens [] (repeatedSegments 16) trackingDlg).startTimeText
          = formatU
              (feedOneByOne sampleTokens [] (repeatedSegments 16) trackingDlg).app.duplicatedSecond := by
  decide

/-- C3, amended: the tracker holds `T` with an empty repeat list and is fed
`first`, then `mid`, then `last`, at least 16 segments in all, each decoding
to `T`. Then the state is `Stopping`, the repeat list is longer than 15, the
text written to the start-time field is the whole-second start time of
`last`, the segment processed last, printed with `%u`, and the first-seen
repeat second, the start second of `first`, is what `duplicatedSecond`
holds. -/
theorem C3_restart_point_is_last_segment (tokens : List sToken) (T : String)
    (first last : sSegment) (mid done : List sSegment) (st : Dlg)
    (hcur : st.app.currentResult = T)
    (hempty : st.app.duplicatedResults = [])
    (hall : ∀ seg ∈ first :: (mid ++ [last]), decodeTokens tokens seg "" = T)
    (hlen : 14 ≤ mid.length) :
    (feedOneByOne tokens done (first :: (mid ++ [last])) st).visualState
        = eVisualState.Stopping ∧
      15 < (feedOneByOne tokens done (first :: (mid ++ [last])) st).app.duplicatedResults.length ∧
      (feedOneByOne tokens done (first :: (mid ++ [last])) st).startTimeText
        = formatU (fullSeconds last.timeBegin) ∧
      (feedOneByOne tokens done (first :: (mid ++ [last])) st).app.duplicatedSecond
        = fullSeconds first.timeBegin := by
  have hfirst : decodeTokens tokens first "" = st.app.currentResult := by
    rw [hcur]; exact hall first (List.mem_cons_self _ _)
  have hmid : ∀ s ∈ mid, decodeTokens tokens s "" = T :=
    fun s hs => hall s (List.mem_cons_of_mem _ (List.mem_append_left _ hs))
  have hrest : ∀ s ∈ mid ++ [last], decodeTokens tokens s "" = T :=
    fun s hs => hall s (List.mem_cons_of_mem _ hs)
  have hlast : decodeTokens tokens last "" = T :=
    hall last (List.mem_cons_of_mem _ (List.mem_append_right _ (List.mem_singleton_self _)))
  have hall0 : st.app.duplicatedResults.length = 0 := by rw [hempty]; rfl
  have hcur1 : (segmentStep tokens ("", st) first).2.app.currentResult = T := by
    rw [segmentStep_match_current tokens first "" st hfirst]; exact hcur
  have hlen1 : (segmentStep tokens ("", st) first).2.app.duplicatedResults.length = 1 := by
    rw [segmentStep_match_length tokens first "" st hfirst, hall0]
  have hsec1 : (segmentStep tokens ("", st) first).2.app.duplicatedSecond
      = fullSeconds first.timeBegin := by
    rw [segmentStep_match_second tokens first "" st hfirst, if_pos hall0]
  obtain ⟨a1, a2, a3, _⟩ := feedOneByOne_match tokens T (mid ++ [last]) (done ++ [first])
    (segmentStep tokens ("", st) first).2 hcur1 hrest
  obtain ⟨b1, b2, _, _⟩ := feedOneByOne_match tokens T mid (done ++ [first])
    (segmentStep tokens ("", st) first).2 hcur1 hmid
  have hlastStep : decodeTokens tokens last ""
      = (feedOneByOne tokens (done ++ [first]) mid
          (segmentStep tokens ("", st) first).2).app.currentResult := by
    rw [b1]; exact hlast
  rw [feedOneByOne_cons]
  refine ⟨?_, ?_, ?_, ?_⟩
  · rw [a3, hlen1, if_pos]
    simp only [List.length_append, List.length_singleton]
    omega
  · rw [a2, hlen1]
    simp only [List.length_append, List.length_singleton]
    omega
  · rw [feedOneByOne_append, feedOneByOne_cons]
    simp only [feedOneByOne]
    rw [segmentStep_match_text tokens last "" _ hlastStep, if_pos]
    rw [b2, hlen1]
    omega
  · rw [feedOneByOne_match_second tokens T (mid ++ [last]) (done ++ [first]) _ hcur1 hrest
      (by rw [hlen1]; omega), hsec1]

/-- C3, amended, for the 16 segments starting at the seconds 10 to 25: the
field reads `25` and the first-seen repeat second is 10. -/
theorem C3_restart_point_is_last_segment_witness :
    (feedOneByOne sampleTokens []
        (oneTokenSegment 0 10 :: ((repeatedSegments 15).tail ++ [oneTokenSegment 0 25]))
        trackingDlg).visualState = eVisualState.Stopping ∧
      15 < (feedOneByOne sampleTokens []
        (oneTokenSegment 0 10 :: ((repeatedSegments 15).tail ++ [oneTokenSegment 0 25]))
        trackingDlg).app.duplicatedResults.length ∧
      (feedOneByOne sampleTokens []
        (oneTokenSegment 0 10 :: ((repeatedSegments 15).tail ++ [oneTokenSegment 0 25]))
        trackingDlg).startTimeText = "25" ∧
      (feedOneByOne sampleTokens []
        (oneTokenSegment 0 10 :: ((repeatedSegments 15).tail ++ [oneTokenSegment 0 25]))
        trackingDlg).app.duplicatedSecond = 10 :=
  C3_restart_point_is_last_segment sampleTokens "a" (oneTokenSegment 0 10) (oneTokenSegment 0 25)
    (repeatedSegments 15).tail [] trackingDlg (by decide) (by decide) (by decide) (by decide)

/-- C4 fails on the code: `str` is declared before the loop over the new
segments and is never emptied, so in a callback for two new segments, with the
texts `a` and `b`, the text compared for the second segment is `ab`, the texts
of both segments, not `b`; it is what the tracker holds afterwards. In the
same way two new segments with the text `a`, delivered in one callback to a
tracker that holds `a`, are not counted as two repeats: the second is compared
as `aa` and resets the tracker. -/
theorem C4_second_segment_text_is_accumulated :
    decodeTokens sampleTokens (oneTokenSegment 1 11) "" = "b" ∧
      (List.foldl (segmentStep twoSegmentResult.tokens) ("", runningDlg)
        twoSegmentResult.segments).1 = "ab" ∧
      (newSegmentCallback twoSegmentResult 2 runningDlg).app.currentResult = "ab" ∧
      (newSegmentCallback twoEqualSegmentResult 2 trackingDlg).app
        = { currentResult := "aa", duplicatedResults := [], duplicatedSecond := 0 } := by
  decide

/-! ## The result writers (C5 to C7) -/

theorem subRipCue_length_pos (i : Nat) (seg : sSegment) : 0 < (subRipCue i seg).length := by
  simp only [subRipCue, String.length_append]
  have : "\r\n\r\n".length = 4 := by decide
  omega

theorem webVTTCue_length_pos (seg : sSegment) : 0 < (webVTTCue seg).length := by
  simp only [webVTTCue, String.length_append]
  have : "\r\n\r\n".length = 4 := by decide
  omega

theorem write_subRipCue (file : List String) (i : Nat) (seg : sSegment) :
    write file (subRipCue i seg) = file ++ [subRipCue i seg] := by
  simp [write, subRipCue_length_pos]

theorem write_webVTTCue (file : List String) (seg : sSegment) :
    write file (webVTTCue seg) = file ++ [webVTTCue seg] := by
  simp [write, webVTTCue_length_pos]

/-- The loop of `writeSubRip` in closed form: the cues of the segments before
`bound` whose text has no `(`, each numbered by its position, and an overrun
exactly when `bound` lies beyond the end of the array. -/
theorem subRipLoop_eq (bound : Nat) :
    ∀ (rest : List sSegment) (i : Nat) (file : List String),
      subRipLoop bound i rest file
        = { file := file ++
              ((((rest.take (bound - i)).enumFrom i).filter
                  (fun p => decide ('(' ∉ p.2.text.toList))).map
                (fun p => subRipCue p.1 p.2))
            overrun := if i + rest.length < bound then some (i + rest.length) else none } := by
  intro rest
  induction rest with
  | nil =>
    intro i file
    simp only [subRipLoop, List.take_nil, List.enumFrom_nil, List.filter_nil, List.map_nil,
      List.append_nil, List.length_nil, Nat.add_zero]
    split_ifs <;> rfl
  | cons seg rest ih =>
    intro i file
    unfold subRipLoop
    by_cases hb : i < bound
    · have hsub : bound - i = (bound - (i + 1)) + 1 := by omega
      by_cases hp : '(' ∈ seg.text.toList
      · rw [if_pos hb, if_pos hp, ih, hsub]
        simp only [List.take_succ_cons, List.enumFrom_cons, List.length_cons]
        rw [List.filter_cons_of_neg (by simpa using hp)]
        congr 1
        simp only [show i + 1 + rest.length = i + (rest.length + 1) by omega]
      · rw [if_pos hb, if_neg hp, ih, hsub, write_subRipCue]
        simp only [List.take_succ_cons, List.enumFrom_cons, List.length_cons]
        rw [List.filter_cons_of_pos (by simpa using hp)]
        simp only [List.map_cons, List.append_assoc, List.singleton_append]
        congr 1
        simp only [show i + 1 + rest.length = i + (rest.length + 1) by omega]
    · rw [if_neg hb]
      have h0 : bound - i = 0 := by omega
      rw [h0]
      simp only [List.take_zero, List.enumFrom_nil, List.filter_nil, List.map_nil,
        List.append_nil, List.length_cons]
      rw [if_neg (by omega)]

/-- With `dupLines` at most the number of segments, `writeSubRip` writes the
byte-order mark and the cues of the segments below `length - dupLines`. -/
theorem writeSubRip_of_le (segs : List sSegment) (dupLines : Nat) (file : List String)
    (h : dupLines ≤ segs.length) :
    writeSubRip (some segs) dupLines file
      = { file := file ++ [utf8Bom] ++
            ((((segs.take (segs.length - dupLines)).enum).filter
                (fun p => decide ('(' ∉ p.2.text.toList))).map
              (fun p => subRipCue p.1 p.2))
          overrun := none } := by
  have hs : sizeSub segs.length dupLines = segs.length - dupLines := by simp [sizeSub, h]
  simp only [writeSubRip, writeUtf8Bom, hs]
  by_cases h0 : segs.length - dupLines ≤ 0
  · rw [if_pos h0]
    have : segs.length - dupLines = 0 := by omega
    simp [this]
  · rw [if_neg h0, subRipLoop_eq]
    simp only [Nat.sub_zero, Nat.zero_add, List.enum]
    rw [if_neg (by omega)]

theorem filter_enumFrom_snd (p : sSegment → Bool) :
    ∀ (segs : List sSegment) (k : Nat),
      ((segs.enumFrom k).filter (fun q => p q.2)).map Prod.snd = segs.filter p := by
  intro segs
  induction segs with
  | nil => intro k; simp
  | cons seg rest ih =>
    intro k
    simp only [List.enumFrom_cons]
    by_cases hp : p seg = true
    · rw [List.filter_cons_of_pos (by simpa using hp), List.filter_cons_of_pos hp,
        List.map_cons, ih]
    · rw [List.filter_cons_of_neg (by simpa using hp), List.filter_cons_of_neg hp, ih]

theorem writeWebVTT_loop (segs : List sSegment) :
    ∀ file : List String,
      segs.foldl (fun f seg => write f (webVTTCue seg)) file = file ++ segs.map webVTTCue := by
  induction segs with
  | nil => intro file; simp
  | cons seg rest ih =>
    intro file
    simp only [List.foldl_cons, List.map_cons]
    rw [ih, write_webVTTCue]
    simp

/-- C5 fails on the code: the guard `length - dupLines <= 0` is evaluated in
`size_t`, so it catches `dupLines = length` only; for one segment and
`dupLines = 2` the difference wraps to `2 ^ 64 - 1`, the loop runs, the cue of
the segment is written after the byte-order mark, and the loop then reads
`segments[ 1 ]`, past the end of the array. With `dupLines = 1` the output is
the byte-order mark alone. -/
theorem C5_subrip_dup_lines_beyond_length :
    writeSubRip (some [textSegment " hello" 1]) 2 []
        = { file := [utf8Bom, "1\r\n00:00:01,000 --> 00:00:02,000\r\nhello\r\n\r\n"],
            overrun := some 1 } ∧
      writeSubRip (some [textSegment " hello" 1]) 1 [] = { file := [utf8Bom], overrun := none } := by
  decide

/-- C6: with `dupLines = 0`, the SubRip output is the byte-order mark followed
by the cues of exactly the segments whose text has no `(`, each numbered by
its position in the sequence, while the WebVTT output is the byte-order mark,
the header and one cue for every segment, in order, whatever its text. For
the three sample segments, the second being ` (music)`, SubRip has the cues 1
and 3 and WebVTT has all three. -/
theorem C6_paren_filter_is_subrip_only (segs : List sSegment) :
    writeSubRip (some segs) 0 []
        = { file := utf8Bom ::
              ((segs.enum.filter (fun p => decide ('(' ∉ p.2.text.toList))).map
                (fun p => subRipCue p.1 p.2))
            overrun := none } ∧
      writeWebVTT segs [] = utf8Bom :: "WEBVTT\r\n\r\n" :: segs.map webVTTCue ∧
      (writeWebVTT segs []).length = segs.length + 2 ∧
      (writeSubRip (some segs) 0 []).file.length
        = (segs.filter (fun seg => decide ('(' ∉ seg.text.toList))).length + 1 ∧
      (writeSubRip (some sampleSegments) 0 []).file
        = [utf8Bom, "1\r\n00:00:01,000 --> 00:00:02,000\r\nhello\r\n\r\n",
            "3\r\n01:01:01,000 --> 01:01:02,000\r\nbye\r\n\r\n"] ∧
      writeWebVTT sampleSegments []
        = [utf8Bom, "WEBVTT\r\n\r\n", "00:00:01.000 --> 00:00:02.000\r\nhello\r\n\r\n",
            "00:00:02.000 --> 00:00:03.000\r\n(music)\r\n\r\n",
            "01:01:01.000 --> 01:01:02.000\r\nbye\r\n\r\n"] := by
  have h1 := writeSubRip_of_le segs 0 [] (Nat.zero_le _)
  simp only [Nat.sub_zero, List.take_length, List.nil_append, List.singleton_append] at h1
  have hw : write [utf8Bom] "WEBVTT\r\n\r\n" = [utf8Bom, "WEBVTT\r\n\r\n"] := by decide
  have h2 : writeWebVTT segs [] = utf8Bom :: "WEBVTT\r\n\r\n" :: segs.map webVTTCue := by
    simp only [writeWebVTT, writeUtf8Bom, List.nil_append, hw, writeWebVTT_loop]
    simp
  refine ⟨h1, h2, ?_, ?_, by decide, by decide⟩
  · rw [h2]; simp
  · rw [h1]
    simp only [List.length_cons, List.length_map, Nat.add_right_cancel_iff]
    rw [← filter_enumFrom_snd (fun seg => decide ('(' ∉ seg.text.toList)) segs 0]
    simp [List.enum]

/-- With more duplicate lines than segments (and `dupLines` a `size_t`), the
loop of `writeSubRip` covers the whole array, no segment is held back, and the
loop runs past the end of the array. -/
theorem writeSubRip_of_gt (segs : List sSegment) (dupLines : Nat) (file : List String)
    (h : segs.length < dupLines) (hd : dupLines < 2 ^ 64) :
    writeSubRip (some segs) dupLines file
      = { file := file ++ [utf8Bom] ++
            ((segs.enum.filter (fun p => decide ('(' ∉ p.2.text.toList))).map
              (fun p => subRipCue p.1 p.2))
          overrun := some segs.length } := by
  have hs : sizeSub segs.length dupLines = segs.length + 2 ^ 64 - dupLines := by
    simp [sizeSub]; omega
  simp only [writeSubRip, writeUtf8Bom, hs]
  rw [if_neg (by omega), subRipLoop_eq]
  simp only [Nat.sub_zero, Nat.zero_add, List.enum]
  rw [if_pos (by omega), List.take_of_length_le (by omega)]

/-! ### Reading the cue numbers back -/

theorem digitChar_isDigit (d : Nat) (h : d < 10) :
    (Nat.digitChar d).isDigit = true ∧ (Nat.digitChar d).toNat - 48 = d := by
  interval_cases d <;> decide

theorem digitsValue_append_singleton (ds : List Char) (c : Char) :
    digitsValue (ds ++ [c]) = 10 * digitsValue ds + (c.toNat - 48) := by
  simp [digitsValue, List.foldl_append]

/-- The digits that `Nat.toDigitsCore` puts in front of `ds`: a non-empty run
of decimal digits whose value is `n`. -/
theorem toDigitsCore_spec :
    ∀ (fuel n : Nat) (ds : List Char), n < fuel →
      ∃ pre : List Char, Nat.toDigitsCore 10 fuel n ds = pre ++ ds ∧ pre ≠ [] ∧
        (∀ c ∈ pre, c.isDigit = true) ∧ digitsValue pre = n := by
  intro fuel
  induction fuel with
  | zero => intro n ds h; omega
  | succ fuel ih =>
    intro n ds h
    have hd := digitChar_isDigit (n % 10) (Nat.mod_lt _ (by decide))
    unfold Nat.toDigitsCore
    by_cases h0 : n / 10 = 0
    · refine ⟨[Nat.digitChar (n % 10)], ?_, by simp, ?_, ?_⟩
      · simp [h0]
      · intro c hc
        rw [List.mem_singleton] at hc
        rw [hc]; exact hd.1
      · have : digitsValue [Nat.digitChar (n % 10)] = (Nat.digitChar (n % 10)).toNat - 48 := by
          simp [digitsValue]
        rw [this, hd.2]
        omega
    · obtain ⟨pre, hpre, _, hdig, hval⟩ :=
        ih (n / 10) (Nat.digitChar (n % 10) :: ds) (by omega)
      refine ⟨pre ++ [Nat.digitChar (n % 10)], ?_, by simp, ?_, ?_⟩
      · simp [h0, hpre]
      · intro c hc
        rw [List.mem_append, List.mem_singleton] at hc
        rcases hc with hc | hc
        · exact hdig c hc
        · rw [hc]; exact hd.1
      · rw [digitsValue_append_singleton, hval, hd.2]
        omega

/-- The decimal text of `n` is a non-empty run of decimal digits whose value
is `n`. -/
theorem toString_digits (n : Nat) :
    (toString n).toList ≠ [] ∧ (∀ c ∈ (toString n).toList, c.isDigit = true) ∧
      digitsValue (toString n).toList = n := by
  obtain ⟨pre, hpre, hne, hdig, hval⟩ := toDigitsCore_spec (n + 1) n [] (Nat.lt_succ_self n)
  have : (toString n).toList = pre := by
    show (Nat.repr n).data = pre
    simp [Nat.repr, Nat.toDigits, hpre, List.asString]
  rw [this]
  exact ⟨hne, hdig, hval⟩

theorem takeWhile_digits_append (ds rest : List Char) (c : Char)
    (hds : ∀ x ∈ ds, x.isDigit = true) (hc : c.isDigit = false) :
    (ds ++ c :: rest).takeWhile Char.isDigit = ds := by
  induction ds with
  | nil => simp [List.takeWhile, hc]
  | cons d ds ih =>
    have hd : d.isDigit = true := hds d (List.mem_cons_self _ _)
    rw [List.cons_append, List.takeWhile_cons_of_pos hd,
      ih (fun x hx => hds x (List.mem_cons_of_mem _ hx))]

/-- The number read back from the cue of segment `i` is `i + 1`. -/
theorem cueIndex_subRipCue (i : Nat) (seg : sSegment) :
    cueIndex (subRipCue i seg) = some (i + 1) := by
  obtain ⟨hne, hdig, hval⟩ := toString_digits (i + 1)
  have hform : ∃ rest : List Char,
      (subRipCue i seg).toList = (toString (i + 1)).toList ++ '\r' :: rest := by
    refine ⟨'\n' :: ((printTimeStamp "" seg.timeBegin true ++ " --> "
      ++ printTimeStamp "" seg.timeEnd true ++ "\r\n" ++ skipBlank seg.text
      ++ "\r\n\r\n").toList), ?_⟩
    simp [subRipCue, printTimeStamp, String.toList, String.data_append, List.append_assoc]
  obtain ⟨rest, hrest⟩ := hform
  have htake := takeWhile_digits_append (toString (i + 1)).toList rest '\r' hdig (by decide)
  simp only [cueIndex, hrest, htake, if_neg hne]
  exact congrArg some hval

/-- C7: when no text contains `(` and `dupLines = 0`, `writeSubRip` writes
after the byte-order mark exactly one cue per segment, in segment order, the
cue of the segment at position `j` (from 0) being built with the number
`j + 1`; the numbers read back from the cues are 1, 2, ..., n. -/
theorem C7_subrip_cue_numbering (segs : List sSegment)
    (h : ∀ seg ∈ segs, '(' ∉ seg.text.toList) :
    writeSubRip (some segs) 0 []
        = { file := utf8Bom :: segs.enum.map (fun p => subRipCue p.1 p.2), overrun := none } ∧
      (writeSubRip (some segs) 0 []).file.tail.length = segs.length ∧
      (writeSubRip (some segs) 0 []).file.tail.map cueIndex
        = (List.range segs.length).map (fun j => some (j + 1)) := by
  have h1 := writeSubRip_of_le segs 0 [] (Nat.zero_le _)
  simp only [Nat.sub_zero, List.take_length, List.nil_append, List.singleton_append] at h1
  have hall : segs.enum.filter (fun p => decide ('(' ∉ p.2.text.toList)) = segs.enum := by
    rw [List.filter_eq_self]
    intro p hp
    have : p.2 ∈ segs := by
      have := List.mem_map_of_mem Prod.snd hp
      simpa [List.enum] using this
    simpa using h p.2 this
  rw [hall] at h1
  refine ⟨h1, ?_, ?_⟩
  · rw [h1]; simp [List.enum]
  · rw [h1]
    simp only [List.tail_cons, List.map_map]
    apply List.ext_getElem
    · simp [List.enum]
    · intro j hj1 hj2
      simp [List.enum, cueIndex_subRipCue]

/-- C7 for a sequence of two segments: the numbers read back are 1 and 2. -/
theorem C7_subrip_cue_numbering_witness :
    (writeSubRip (some [textSegment " hello" 1, textSegment "\tbye" 3661]) 0 []).file.tail.map
        cueIndex = [some 1, some 2] :=
  (C7_subrip_cue_numbering [textSegment " hello" 1, textSegment "\tbye" 3661] (by decide)).2.2

/-! ## Parsing of the time fields (C8) -/

theorem dropWhile_digits_append (ds rest : List Char) (c : Char)
    (hds : ∀ x ∈ ds, x.isDigit = true) (hc : c.isDigit = false) :
    (ds ++ c :: rest).dropWhile Char.isDigit = c :: rest := by
  induction ds with
  | nil => simp [List.dropWhile, hc]
  | cons d ds ih =>
    have hd : d.isDigit = true := hds d (List.mem_cons_self _ _)
    rw [List.cons_append, List.dropWhile_cons_of_pos hd,
      ih (fun x hx => hds x (List.mem_cons_of_mem _ hx))]

/-- A text made of four non-empty digit groups separated by `:`, `:` and `.`
matches the pattern, with these groups. -/
theorem matchTime_timeText (h m s f : List Char)
    (hh : h ≠ []) (hm : m ≠ []) (hs : s ≠ []) (hf : f ≠ [])
    (dh : ∀ c ∈ h, c.isDigit = true) (dm : ∀ c ∈ m, c.isDigit = true)
    (ds : ∀ c ∈ s, c.isDigit = true) (df : ∀ c ∈ f, c.isDigit = true) :
    matchTime (timeText h m s f).toList = some (h, m, s, f) := by
  have e1 : (timeText h m s f).toList = h ++ ':' :: (m ++ ':' :: (s ++ '.' :: f)) := rfl
  have tf : f.takeWhile Char.isDigit = f := List.takeWhile_eq_self_iff.mpr df
  have drf : f.dropWhile Char.isDigit = [] := List.dropWhile_eq_nil_iff.mpr df
  rw [e1]
  unfold matchTime
  simp only [takeWhile_digits_append h _ ':' dh (by decide),
    dropWhile_digits_append h _ ':' dh (by decide),
    takeWhile_digits_append m _ ':' dm (by decide),
    dropWhile_digits_append m _ ':' dm (by decide),
    takeWhile_digits_append s _ '.' ds (by decide),
    dropWhile_digits_append s _ '.' ds (by decide), tf, drf]
  simp [hh, hm, hs, hf]

theorem wrapInt_eq (x : Int) (h0 : -2147483648 ≤ x) (h1 : x ≤ 2147483647) : wrapInt x = x := by
  unfold wrapInt
  omega

theorem stoi_eq (ds : List Char) (h : digitsValue ds ≤ 2147483647) :
    stoi ds = some (digitsValue ds : Int) := by
  simp [stoi, h]

theorem parseMilli_eq (f : List Char) (h : scaledFraction f * 100 ≤ 2147483647) :
    parseMilli f = some (scaledFraction f : Int) := by
  by_cases h3 : f.length = 3
  · have h1 : ¬ f.length = 1 := by omega
    have h2 : ¬ f.length = 2 := by omega
    have hsf : scaledFraction f = digitsValue f := by
      unfold scaledFraction; rw [if_neg h1, if_neg h2, if_pos h3]
    have hpm : parseMilli f = stoi f := by
      unfold parseMilli; rw [if_pos h3]
    rw [hsf] at h ⊢
    rw [hpm]
    exact stoi_eq f (by omega)
  · by_cases h2 : f.length = 2
    · have h1 : ¬ f.length = 1 := by omega
      have hsf : scaledFraction f = digitsValue f * 10 := by
        unfold scaledFraction; rw [if_neg h1, if_pos h2]
      have hpm : parseMilli f = (stoi f).map (fun v => imul v 10) := by
        unfold parseMilli; rw [if_neg h3, if_pos h2]
      rw [hsf] at h ⊢
      rw [hpm, stoi_eq f (by omega)]
      simp only [Option.map_some', imul]
      rw [wrapInt_eq _ (by omega) (by omega)]
      push_cast
      rfl
    · by_cases h1 : f.length = 1
      · have hsf : scaledFraction f = digitsValue f * 100 := by
          unfold scaledFraction; rw [if_pos h1]
        have hpm : parseMilli f = (stoi f).map (fun v => imul v 100) := by
          unfold parseMilli; rw [if_neg h3, if_neg h2, if_pos h1]
        rw [hsf] at h ⊢
        rw [hpm, stoi_eq f (by omega)]
        simp only [Option.map_some', imul]
        rw [wrapInt_eq _ (by omega) (by omega)]
        push_cast
        rfl
      · have hsf : scaledFraction f = 0 := by
          unfold scaledFraction; rw [if_neg h1, if_neg h2, if_neg h3]
        have hpm : parseMilli f = some 0 := by
          unfold parseMilli; rw [if_neg h3, if_neg h2, if_neg h1]
        rw [hsf, hpm]
        rfl

/-- C8 as the spec states it fails: the text `2147483648:0:0.0` has the form
`H:M:S.fraction`, but its hour group does not fit an `int`, `std::stoi`
throws, and no value is stored. -/
theorem C8_hours_beyond_int_are_not_parsed :
    matchTime "2147483648:0:0.0".toList
        = some ("2147483648".toList, "0".toList, "0".toList, "0".toList) ∧
      parseTimeField "2147483648:0:0.0" = none ∧
      ¬ parseTimeField "2147483648:0:0.0"
          = some (((2147483648 * 3600 + 0 * 60 + 0) * 1000 + 0 * 100 : Nat) : Int) := by
  decide

/-- C8, amended: for every text `H:M:S.fraction` whose total
`(h*3600 + m*60 + s)*1000 + scaledFraction*100` fits an `int`, that total is
the parsed value, where `scaledFraction` is the fraction times 100 for one
digit, times 10 for two, times 1 for three, and 0 for a longer fraction; any
other text is read by `_ttoi` and the value stored is that integer times
1000 as an `int`, the product itself when it fits; `01:02:03.5` and
`1:2:3.500` parse to the same total, 3773000. -/
theorem C8_time_field_parsing :
    (∀ h m s f : List Char,
      h ≠ [] → m ≠ [] → s ≠ [] → f ≠ [] →
      (∀ c ∈ h, c.isDigit = true) → (∀ c ∈ m, c.isDigit = true) →
      (∀ c ∈ s, c.isDigit = true) → (∀ c ∈ f, c.isDigit = true) →
      (digitsValue h * 3600 + digitsValue m * 60 + digitsValue s) * 1000
          + scaledFraction f * 100 ≤ 2147483647 →
      parseTimeField (timeText h m s f)
        = some (((digitsValue h * 3600 + digitsValue m * 60 + digitsValue s) * 1000
            + scaledFraction f * 100 : Nat) : Int)) ∧
    (∀ text : String, matchTime text.toList = none →
      parseTimeField text = some (wrapInt (ttoi text.toList * 1000)) ∧
      (-2147483648 ≤ ttoi text.toList * 1000 → ttoi text.toList * 1000 ≤ 2147483647 →
        parseTimeField text = some (ttoi text.toList * 1000))) ∧
    parseTimeField "01:02:03.5" = some 3773000 ∧
    parseTimeField "1:2:3.500" = some 3773000 := by
  refine ⟨?_, ?_, by decide, by decide⟩
  · intro h m s f hh hm hs hf dh dm ds df hfit
    unfold parseTimeField
    rw [matchTime_timeText h m s f hh hm hs hf dh dm ds df]
    simp only []
    rw [stoi_eq h (by omega), stoi_eq m (by omega), stoi_eq s (by omega),
      parseMilli_eq f (by omega)]
    simp only [imul, iadd]
    rw [wrapInt_eq ((digitsValue h : Int) * 60) (by omega) (by omega)]
    rw [wrapInt_eq ((digitsValue h : Int) * 60 * 60) (by omega) (by omega)]
    rw [wrapInt_eq ((digitsValue h : Int) * 60 * 60 * 1000) (by omega) (by omega)]
    rw [wrapInt_eq ((digitsValue m : Int) * 60) (by omega) (by omega)]
    rw [wrapInt_eq ((digitsValue m : Int) * 60 * 1000) (by omega) (by omega)]
    rw [wrapInt_eq ((digitsValue s : Int) * 1000) (by omega) (by omega)]
    rw [wrapInt_eq ((scaledFraction f : Int) * 100) (by omega) (by omega)]
    rw [wrapInt_eq ((digitsValue h : Int) * 60 * 60 * 1000 + (digitsValue m : Int) * 60 * 1000)
      (by omega) (by omega)]
    rw [wrapInt_eq ((digitsValue h : Int) * 60 * 60 * 1000 + (digitsValue m : Int) * 60 * 1000
      + (digitsValue s : Int) * 1000) (by omega) (by omega)]
    rw [wrapInt_eq _ (by omega) (by omega)]
    refine congrArg some ?_
    push_cast
    ring
  · intro text hno
    have hp : parseTimeField text = some (wrapInt (ttoi text.toList * 1000)) := by
      unfold parseTimeField
      rw [hno]
      rfl
    refine ⟨hp, ?_⟩
    intro h0 h1
    rw [hp, wrapInt_eq _ h0 h1]

/-- C8, amended, at the texts `01:02:03.5` and `90`: 3773000 and 90000. -/
theorem C8_time_field_parsing_witness :
    parseTimeField (timeText "01".toList "02".toList "03".toList "5".toList)
        = some (((digitsValue "01".toList * 3600 + digitsValue "02".toList * 60
            + digitsValue "03".toList) * 1000 + scaledFraction "5".toList * 100 : Nat) : Int) ∧
      parseTimeField "90" = some (ttoi "90".toList * 1000) :=
  ⟨C8_time_field_parsing.1 "01".toList "02".toList "03".toList "5".toList
      (by decide) (by decide) (by decide) (by decide) (by decide) (by decide) (by decide)
      (by decide) (by decide),
    (C8_time_field_parsing.2.1 "90" (by decide)).2 (by decide) (by decide)⟩

/-! ## The duration formatter (C9) -/

theorem roundDivEven_spec (a b : Nat) (hb : 0 < b) :
    2 * (roundDivEven a b * b) ≤ 2 * a + b ∧ 2 * a ≤ 2 * (roundDivEven a b * b) + b := by
  have hd : b * (a / b) + a % b = a := Nat.div_add_mod a b
  have hm : a % b < b := Nat.mod_lt a hb
  have hc : b * (a / b) = a / b * b := Nat.mul_comm _ _
  have hs : (a / b + 1) * b = a / b * b + b := by ring
  rw [hc] at hd
  unfold roundDivEven
  split_ifs <;> omega

/-- For a positive tick count the exponent found makes the scaled quotient
reach `2 ^ 52`. -/
theorem quotientExponent_spec (ticks : Nat) (h : 0 < ticks) :
    10000000 * 2 ^ 52 ≤ ticks * 2 ^ quotientExponent ticks := by
  unfold quotientExponent
  cases hf : (List.range 77).find? (fun e => decide (10000000 * 2 ^ 52 ≤ ticks * 2 ^ e)) with
  | none =>
    rw [List.find?_eq_none] at hf
    have h76 := hf 76 (by simp)
    have : 10000000 * 2 ^ 52 ≤ 1 * 2 ^ 76 := by norm_num
    have : 1 * 2 ^ 76 ≤ ticks * 2 ^ 76 := Nat.mul_le_mul_right _ h
    simp only [decide_eq_true_eq] at h76
    omega
  | some e =>
    have := List.find?_some hf
    simpa using this

/-- The thousandths printed by `%.3f` for a tick count below one minute are
the tick count divided by 10000 and rounded to the nearest integer. -/
theorem secondsThousandths_near (ticks : Nat) (h : ticks < 600000000) :
    secondsThousandths ticks * 10000 ≤ ticks + 5000 ∧
      ticks ≤ secondsThousandths ticks * 10000 + 5000 := by
  unfold secondsThousandths
  by_cases h0 : ticks = 0
  · simp [h0]
  · rw [if_neg h0]
    have hpos : 0 < ticks := Nat.pos_of_ne_zero h0
    have hq := quotientExponent_spec ticks hpos
    generalize 2 ^ quotientExponent ticks = E at hq ⊢
    have hE : 5000000 < E := by
      by_contra hcon
      have h1 : ticks * E ≤ 600000000 * 5000000 :=
        Nat.mul_le_mul (Nat.le_of_lt h) (Nat.le_of_not_lt hcon)
      have h2 : 600000000 * 5000000 < 10000000 * 2 ^ 52 := by norm_num
      omega
    obtain ⟨a1, a2⟩ := roundDivEven_spec (ticks * E) 10000000 (by norm_num)
    generalize roundDivEven (ticks * E) 10000000 = M at a1 a2 ⊢
    obtain ⟨b1, b2⟩ := roundDivEven_spec (M * 1000) E (by omega)
    generalize roundDivEven (M * 1000) E = th at b1 b2 ⊢
    constructor
    · by_contra hcon
      have h1 : (ticks + 5001) * E ≤ th * 10000 * E :=
        Nat.mul_le_mul_right E (by omega)
      have e1 : (ticks + 5001) * E = ticks * E + 5001 * E := by ring
      have e2 : th * 10000 * E = 10000 * (th * E) := by ring
      omega
    · by_contra hcon
      have h1 : (th * 10000 + 5001) * E ≤ ticks * E :=
        Nat.mul_le_mul_right E (by omega)
      have e1 : (th * 10000 + 5001) * E = 10000 * (th * E) + 5001 * E := by ring
      omega

theorem digitChar_eq_digit (d : Nat) (h : d < 10) : Nat.digitChar d = digit d := by
  interval_cases d <;> decide

theorem toDigitsCore_succ (fuel n : Nat) (ds : List Char) :
    Nat.toDigitsCore 10 (fuel + 1) n ds
      = if n / 10 = 0 then Nat.digitChar (n % 10) :: ds
        else Nat.toDigitsCore 10 fuel (n / 10) (Nat.digitChar (n % 10) :: ds) := by
  simp [Nat.toDigitsCore]

theorem toString_eq_mk (n : Nat) : toString n = String.mk (Nat.toDigits 10 n) := rfl

theorem toString_one_digit (n : Nat) (h : n < 10) : toString n = String.mk [digit n] := by
  rw [toString_eq_mk, Nat.toDigits, toDigitsCore_succ, if_pos (by omega),
    digitChar_eq_digit _ (by omega), Nat.mod_eq_of_lt h]

theorem toString_two_digits (n : Nat) (h0 : 10 ≤ n) (h : n < 100) :
    toString n = String.mk [digit (n / 10), digit (n % 10)] := by
  obtain ⟨k, rfl⟩ : ∃ k, n = k + 1 := ⟨n - 1, by omega⟩
  rw [toString_eq_mk, Nat.toDigits, toDigitsCore_succ, if_neg (by omega), toDigitsCore_succ,
    if_pos (by omega), digitChar_eq_digit _ (by omega), digitChar_eq_digit _ (by omega),
    Nat.mod_eq_of_lt (show (k + 1) / 10 < 10 by omega)]

theorem toString_three_digits (n : Nat) (h0 : 100 ≤ n) (h : n < 1000) :
    toString n = String.mk [digit (n / 100), digit (n / 10 % 10), digit (n % 10)] := by
  obtain ⟨k, rfl⟩ : ∃ k, n = k + 2 := ⟨n - 2, by omega⟩
  rw [toString_eq_mk, Nat.toDigits, toDigitsCore_succ, if_neg (by omega), toDigitsCore_succ,
    if_neg (by omega), toDigitsCore_succ, if_pos (by omega), digitChar_eq_digit _ (by omega),
    digitChar_eq_digit _ (by omega), digitChar_eq_digit _ (by omega)]
  have e1 : (k + 2) / 10 / 10 % 10 = (k + 2) / 100 := by omega
  rw [e1]

/-- `%02d` of a number below 100 is its two decimal digits. -/
theorem pad2_eq (n : Nat) (h : n < 100) : pad2 n = String.mk [digit (n / 10), digit (n % 10)] := by
  unfold pad2
  by_cases h10 : n < 10
  · rw [if_pos h10, toString_one_digit n h10]
    have e1 : n / 10 = 0 := by omega
    have e2 : n % 10 = n := by omega
    rw [e1, e2]
    rfl
  · rw [if_neg h10, toString_two_digits n (by omega) h]

/-- `%03d` of a number below 1000 is its three decimal digits. -/
theorem pad3_eq (n : Nat) (h : n < 1000) :
    pad3 n = String.mk [digit (n / 100), digit (n / 10 % 10), digit (n % 10)] := by
  unfold pad3
  by_cases h10 : n < 10
  · rw [if_pos h10, toString_one_digit n h10]
    have e1 : n / 100 = 0 := by omega
    have e2 : n / 10 % 10 = 0 := by omega
    have e3 : n % 10 = n := by omega
    rw [e1, e2, e3]
    rfl
  · by_cases h100 : n < 100
    · rw [if_neg h10, if_pos h100, toString_two_digits n (by omega) h100]
      have e1 : n / 100 = 0 := by omega
      have e2 : n / 10 % 10 = n / 10 := by omega
      rw [e1, e2]
      rfl
    · rw [if_neg h10, if_neg h100, toString_three_digits n (by omega) h]

theorem lor_eq_zero (a b : Nat) : a ||| b = 0 ↔ a = 0 ∧ b = 0 := by
  constructor
  · intro h
    have hbit : ∀ i, a.testBit i = false ∧ b.testBit i = false := by
      intro i
      have := Nat.testBit_or a b i
      rw [h, Nat.zero_testBit] at this
      simpa using this.symm
    constructor
    · apply Nat.eq_of_testBit_eq
      intro i
      rw [(hbit i).1, Nat.zero_testBit]
    · apply Nat.eq_of_testBit_eq
      intro i
      rw [(hbit i).2, Nat.zero_testBit]
  · rintro ⟨rfl, rfl⟩
    rfl

/-- The fields of a tick count: hours, minutes and seconds are below 24, 60
and 60, and the count is below one minute when days, hours and minutes are
all zero. -/
theorem ofTicks_bounds (tt : Nat) :
    (sTimeSpanFields.ofTicks tt).hours < 24 ∧ (sTimeSpanFields.ofTicks tt).minutes < 60 ∧
      (sTimeSpanFields.ofTicks tt).seconds < 60 ∧
      ((sTimeSpanFields.ofTicks tt).days = 0 → (sTimeSpanFields.ofTicks tt).hours = 0 →
        (sTimeSpanFields.ofTicks tt).minutes = 0 → tt < 600000000) := by
  simp only [sTimeSpanFields.ofTicks]
  omega

/-- C9: for every tick count (an `int64_t`, in units of 100 ns) the text that
`printTime` appends is, for the days/hours/minutes/seconds fields of the
count: `<days> days, <hours> hours` when days is nonzero; otherwise the
zero-padded two-digit `HH:MM:SS` when hours or minutes is nonzero; otherwise
the seconds with three decimals followed by ` seconds`, the decimals being the
tick count rounded to the nearest thousandth of a second. 2.5 s of ticks
gives `2.500 seconds`, 1 h 2 min 3 s gives `01:02:03`, one day gives
`1 days, 0 hours`. -/
theorem C9_printTime_tiers (rdi : String) (ticks : Int)
    (hlo : -9223372036854775808 ≤ ticks) (hhi : ticks ≤ 9223372036854775807) :
    printTime rdi ticks
        = rdi ++ durationText (sTimeSpanFields.ofTicks (ticks % 18446744073709551616).toNat)
            (secondsThousandths ticks.toNat) ∧
      ((sTimeSpanFields.ofTicks (ticks % 18446744073709551616).toNat).days = 0 →
        (sTimeSpanFields.ofTicks (ticks % 18446744073709551616).toNat).hours = 0 →
        (sTimeSpanFields.ofTicks (ticks % 18446744073709551616).toNat).minutes = 0 →
        0 ≤ ticks ∧ ticks < 600000000 ∧
          secondsThousandths ticks.toNat * 10000 ≤ ticks.toNat + 5000 ∧
          ticks.toNat ≤ secondsThousandths ticks.toNat * 10000 + 5000) ∧
      printTime "" 25000000 = "2.500 seconds" ∧
      printTime "" ((1 * 3600 + 2 * 60 + 3) * 10000000) = "01:02:03" ∧
      printTime "" (24 * 3600 * 10000000) = "1 days, 0 hours" := by
  refine ⟨?_, ?_, by decide, by decide, by decide⟩
  · obtain ⟨bh, bm, bs, bt⟩ := ofTicks_bounds (ticks % 18446744073709551616).toNat
    unfold printTime durationText
    simp only []
    by_cases hd : (sTimeSpanFields.ofTicks (ticks % 18446744073709551616).toNat).days = 0
    · by_cases hhm : (sTimeSpanFields.ofTicks (ticks % 18446744073709551616).toNat).hours = 0 ∧
          (sTimeSpanFields.ofTicks (ticks % 18446744073709551616).toNat).minutes = 0
      · have hor : (sTimeSpanFields.ofTicks (ticks % 18446744073709551616).toNat).hours
            ||| (sTimeSpanFields.ofTicks (ticks % 18446744073709551616).toNat).minutes = 0 :=
          (lor_eq_zero _ _).mpr hhm
        have hlt : ticks.toNat < 600000000 := by
          have := bt hd hhm.1 hhm.2
          omega
        have hth : secondsThousandths ticks.toNat % 1000 < 1000 := Nat.mod_lt _ (by norm_num)
        rw [if_neg (by simpa using hd), if_neg (by simpa using hor),
          if_neg (by simpa using hd), if_neg (by simp [hhm.1, hhm.2]), pad3_eq _ hth]
        have e1 : secondsThousandths ticks.toNat % 1000 / 100
            = secondsThousandths ticks.toNat / 100 % 10 := by omega
        have e2 : secondsThousandths ticks.toNat % 1000 / 10 % 10
            = secondsThousandths ticks.toNat / 10 % 10 := by omega
        have e3 : secondsThousandths ticks.toNat % 1000 % 10
            = secondsThousandths ticks.toNat % 10 := by omega
        rw [e1, e2, e3]
        simp only [String.append_assoc]
        rfl
      · have hor : ¬ (sTimeSpanFields.ofTicks (ticks % 18446744073709551616).toNat).hours
            ||| (sTimeSpanFields.ofTicks (ticks % 18446744073709551616).toNat).minutes = 0 :=
          fun h => hhm ((lor_eq_zero _ _).mp h)
        have hor2 : (sTimeSpanFields.ofTicks (ticks % 18446744073709551616).toNat).hours ≠ 0 ∨
            (sTimeSpanFields.ofTicks (ticks % 18446744073709551616).toNat).minutes ≠ 0 := by
          by_contra hc
          push_neg at hc
          exact hhm hc
        rw [if_neg (by simpa using hd), if_pos hor, if_neg (by simpa using hd), if_pos hor2,
          pad2_eq _ (by omega), pad2_eq _ (by omega), pad2_eq _ (by omega)]
        simp only [String.append_assoc]
        rfl
    · rw [if_pos hd, if_pos hd]
      simp only [String.append_assoc]
  · intro hd hh hm
    obtain ⟨_, _, _, bt⟩ := ofTicks_bounds (ticks % 18446744073709551616).toNat
    have hlt := bt hd hh hm
    have h0 : 0 ≤ ticks := by omega
    have h1 : ticks < 600000000 := by omega
    have h2 : ticks.toNat < 600000000 := by omega
    exact ⟨h0, h1, secondsThousandths_near ticks.toNat h2⟩

/-- C9 at 2.5 seconds of ticks: the text is `2.500 seconds`. -/
theorem C9_printTime_tiers_witness :
    printTime "" 25000000
        = "" ++ durationText (sTimeSpanFields.ofTicks ((25000000 : Int) % 18446744073709551616).toNat)
            (secondsThousandths (25000000 : Int).toNat) ∧
      secondsThousandths (25000000 : Int).toNat = 2500 :=
  ⟨(C9_printTime_tiers "" 25000000 (by decide) (by decide)).1, by decide⟩

/-! ## Stop requests on the run state (C10) -/

theorem onTranscribe_stopping (ui : UiInput) (st : Dlg)
    (h : st.visualState = eVisualState.Stopping) : onTranscribe ui st = some st := by
  simp [onTranscribe, stopSwitch, h]

theorem onTranscribe_running (ui : UiInput) (st : Dlg)
    (h : st.visualState = eVisualState.Running) :
    onTranscribe ui st
      = some { st with visualState := eVisualState.Stopping, buttonEnabled := false } := by
  simp [onTranscribe, stopSwitch, h]

/-- A start request leaves the run state `Idle` or makes it `Running`. -/
theorem startRun_state (ui : UiInput) (st st1 : Dlg)
    (hidle : st.visualState = eVisualState.Idle) (h : startRun ui st = some st1) :
    (st1.visualState = eVisualState.Idle ∧ st1.posted = st.posted) ∨
      (st1.visualState = eVisualState.Running ∧ st1.posted = st.posted + 1) := by
  unfold startRun at h
  simp only [] at h
  split_ifs at h
  all_goals first
    | (simp only [Option.some.injEq] at h; subst h
       simp [transcribeError, postRun, hidle])
    | skip
  all_goals
    split at h
    · exact absurd h (by simp)
    · rename_i st2 hren
      have hposted : st2.posted = st.posted := by
        unfold renameOutput at hren
        split_ifs at hren
        · cases hp : ui.renamedOutputPath with
          | none => rw [hp] at hren; exact absurd hren (by simp)
          | some p =>
            rw [hp, Option.map_some', Option.some.injEq] at hren
            rw [← hren]
        · rw [Option.some.injEq] at hren
          rw [← hren]
      split at h
      · exact absurd h (by simp)
      · split at h
        · exact absurd h (by simp)
        · simp only [Option.some.injEq] at h; subst h; simp [postRun, hposted]

theorem pressTrace_stopping :
    ∀ (uis : List UiInput) (st : Dlg), st.visualState = eVisualState.Stopping →
      pressTrace uis st = List.replicate (uis.length + 1) eVisualState.Stopping ∧
        pressAll uis st = some st := by
  intro uis
  induction uis with
  | nil => intro st h; simp [pressTrace, pressAll, h]
  | cons ui rest ih =>
    intro st h
    obtain ⟨h1, h2⟩ := ih st h
    constructor
    · simp only [pressTrace, onTranscribe_stopping ui st h, h1, h, List.length_cons]
      exact (List.replicate_succ ..).symm
    · simp only [pressAll, onTranscribe_stopping ui st h, h2]

theorem runningToStopping_replicate (n : Nat) :
    runningToStopping (List.replicate n eVisualState.Stopping) = 0 := by
  induction n with
  | zero => rfl
  | succ n ih => simp only [List.replicate_succ, runningToStopping, ih]

/-- C10: in `Idle` neither stop case of `onTranscribe` applies, the dialog is
left as it is by the switch and the press, handled as a start request, never
leads to `Stopping`; in `Stopping` a press changes nothing and posts nothing;
in `Running` a press sets `Stopping` (and disables the button) and posts
nothing; so any number of presses, at least one, from `Running` goes from
`Running` to `Stopping` exactly once and stays there. -/
theorem C10_stop_requests :
    (∀ (ui : UiInput) (st : Dlg), st.visualState = eVisualState.Idle →
      stopSwitch st = none ∧
        ∀ st1, onTranscribe ui st = some st1 → st1.visualState ≠ eVisualState.Stopping) ∧
    (∀ (ui : UiInput) (st : Dlg), st.visualState = eVisualState.Stopping →
      onTranscribe ui st = some st) ∧
    (∀ (ui : UiInput) (st : Dlg), st.visualState = eVisualState.Running →
      onTranscribe ui st
        = some { st with visualState := eVisualState.Stopping, buttonEnabled := false }) ∧
    (∀ (uis : List UiInput) (st : Dlg), st.visualState = eVisualState.Running → uis ≠ [] →
      pressTrace uis st
          = eVisualState.Running :: List.replicate uis.length eVisualState.Stopping ∧
        runningToStopping (pressTrace uis st) = 1 ∧
        pressAll uis st
          = some { st with visualState := eVisualState.Stopping, buttonEnabled := false }) := by
  refine ⟨?_, onTranscribe_stopping, onTranscribe_running, ?_⟩
  · intro ui st hidle
    have hsw : stopSwitch st = none := by simp [stopSwitch, hidle]
    refine ⟨hsw, ?_⟩
    intro st1 h
    simp only [onTranscribe, hsw] at h
    rcases startRun_state ui st st1 hidle h with ⟨h1, _⟩ | ⟨h1, _⟩ <;> rw [h1] <;> decide
  · intro uis st hrun hne
    cases uis with
    | nil => exact absurd rfl hne
    | cons ui rest =>
      obtain ⟨h1, h2⟩ := pressTrace_stopping rest
        { st with visualState := eVisualState.Stopping, buttonEnabled := false } rfl
      have htrace : pressTrace (ui :: rest) st
          = eVisualState.Running :: List.replicate (rest.length + 1) eVisualState.Stopping := by
        simp only [pressTrace, onTranscribe_running ui st hrun, h1, hrun]
      refine ⟨htrace, ?_, ?_⟩
      · rw [htrace, List.replicate_succ]
        simp only [runningToStopping]
        rw [runningToStopping_replicate]
      · simp only [pressAll, onTranscribe_running ui st hrun, h2]

/-- C10 for three presses of the button in a running dialog. -/
theorem C10_stop_requests_witness :
    pressTrace [someInput, someInput, someInput] runningDlg
        = [eVisualState.Running, eVisualState.Stopping, eVisualState.Stopping,
            eVisualState.Stopping] ∧
      runningToStopping (pressTrace [someInput, someInput, someInput] runningDlg) = 1 ∧
      pressAll [someInput, someInput, someInput] runningDlg
        = some { runningDlg with visualState := eVisualState.Stopping, buttonEnabled := false } :=
  C10_stop_requests.2.2.2 [someInput, someInput, someInput] runningDlg (by decide) (by decide)

/-! ## The encoder callback and the session (C11 to C13) -/

/-- A pass of the loop of `newSegmentCallback` posts nothing and leaves the
run state as it is or makes it `Stopping`. -/
theorem segmentStep_run_state (tokens : List sToken) (p : String × Dlg) (seg : sSegment) :
    (segmentStep tokens p seg).2.posted = p.2.posted ∧
      ((segmentStep tokens p seg).2.visualState = p.2.visualState ∨
        (segmentStep tokens p seg).2.visualState = eVisualState.Stopping) := by
  unfold segmentStep
  simp only []
  split_ifs <;> simp

theorem segmentLoop_run_state (tokens : List sToken) :
    ∀ (segs : List sSegment) (p : String × Dlg),
      (segs.foldl (segmentStep tokens) p).2.posted = p.2.posted ∧
        ((segs.foldl (segmentStep tokens) p).2.visualState = p.2.visualState ∨
          (segs.foldl (segmentStep tokens) p).2.visualState = eVisualState.Stopping) := by
  intro segs
  induction segs with
  | nil => intro p; simp
  | cons seg rest ih =>
    intro p
    obtain ⟨h1, h2⟩ := ih (segmentStep tokens p seg)
    obtain ⟨g1, g2⟩ := segmentStep_run_state tokens p seg
    simp only [List.foldl_cons]
    refine ⟨by rw [h1, g1], ?_⟩
    rcases h2 with h2 | h2
    · rcases g2 with g2 | g2
      · left; rw [h2, g2]
      · right; rw [h2, g2]
    · right; exact h2

/-- The segment callback posts nothing and leaves the run state as it is or
makes it `Stopping`. -/
theorem newSegmentCallback_run_state (result : TranscribeResult) (n_new : Nat) (st : Dlg) :
    (newSegmentCallback result n_new st).posted = st.posted ∧
      ((newSegmentCallback result n_new st).visualState = st.visualState ∨
        (newSegmentCallback result n_new st).visualState = eVisualState.Stopping) := by
  unfold newSegmentCallback
  exact segmentLoop_run_state result.tokens _ ("", st)

/-- The end of a run makes the state `Idle`, whatever it was and whatever the
outcome, and posts nothing. -/
theorem onCallbackStatus_state (o : RunOutcome) (st : Dlg) :
    (onCallbackStatus o st).1.visualState = eVisualState.Idle ∧
      (onCallbackStatus o st).1.posted = st.posted := by
  unfold onCallbackStatus
  simp only []
  split_ifs <;> simp [transcribeError]

/-- While no run ends, a dialog in state `Stopping` stays there. -/
theorem runEvents_stays_stopping :
    ∀ (events : List Event) (s s1 : Session),
      s.dlg.visualState = eVisualState.Stopping →
      (∀ e ∈ events, e.isCompletion = false) →
      runEvents s events = some s1 →
      s1.dlg.visualState = eVisualState.Stopping := by
  intro events
  induction events with
  | nil =>
    intro s s1 h _ hrun
    simp only [runEvents, Option.some.injEq] at hrun
    rw [← hrun]; exact h
  | cons e rest ih =>
    intro s s1 h hall hrun
    have hrest : ∀ x ∈ rest, x.isCompletion = false :=
      fun x hx => hall x (List.mem_cons_of_mem _ hx)
    have he : e.isCompletion = false := hall e (List.mem_cons_self _ _)
    simp only [runEvents] at hrun
    cases hs : step s e with
    | none => rw [hs] at hrun; exact absurd hrun (by simp)
    | some s2 =>
      rw [hs] at hrun
      refine ih s2 s1 ?_ hrest hrun
      cases e with
      | press ui =>
        simp only [step, onTranscribe_stopping ui s.dlg h, Option.map_some',
          Option.some.injEq] at hs
        rw [← hs]; exact h
      | newSegments result n_new =>
        simp only [step] at hs
        split_ifs at hs
        simp only [Option.some.injEq] at hs
        rw [← hs]
        rcases (newSegmentCallback_run_state result n_new s.dlg).2 with g | g
        · simp only [g, h]
        · exact g
      | completion o => exact absurd he (by simp [Event.isCompletion])

/-- C11: the answer of `encoderBeginCallback` depends on the run state only;
it is `S_OK` (continue) exactly in `Running`, `S_FALSE` (stop now) exactly in
`Stopping` and `E_NOT_VALID_STATE` exactly in `Idle`; so once a press of the
button in `Running` has requested the stop, the callback answers `S_FALSE`
after any further presses and segment callbacks, until the run ends; the same
holds from any dialog in `Stopping`, as after a stop request of the guard. -/
theorem C11_encoder_begin_response :
    (∀ d1 d2 : Dlg, d1.visualState = d2.visualState →
      encoderBeginCallback d1 = encoderBeginCallback d2) ∧
    (∀ d : Dlg,
      (encoderBeginCallback d = S_OK ↔ d.visualState = eVisualState.Running) ∧
      (encoderBeginCallback d = S_FALSE ↔ d.visualState = eVisualState.Stopping) ∧
      (encoderBeginCallback d = E_NOT_VALID_STATE ↔ d.visualState = eVisualState.Idle)) ∧
    (∀ (s s1 s2 : Session) (ui : UiInput) (events : List Event),
      s.dlg.visualState = eVisualState.Running →
      step s (Event.press ui) = some s1 →
      (∀ e ∈ events, e.isCompletion = false) →
      runEvents s1 events = some s2 →
      encoderBeginCallback s1.dlg = S_FALSE ∧ encoderBeginCallback s2.dlg = S_FALSE) ∧
    (∀ (s s2 : Session) (events : List Event),
      s.dlg.visualState = eVisualState.Stopping →
      (∀ e ∈ events, e.isCompletion = false) →
      runEvents s events = some s2 →
      encoderBeginCallback s2.dlg = S_FALSE) := by
  refine ⟨?_, ?_, ?_, ?_⟩
  · intro d1 d2 h
    simp only [encoderBeginCallback, h]
  · intro d
    cases hv : d.visualState <;> simp [encoderBeginCallback, hv, S_OK, S_FALSE, E_NOT_VALID_STATE]
  · intro s s1 s2 ui events hrun hstep hall hev
    have h1 : s1.dlg.visualState = eVisualState.Stopping := by
      simp only [step, onTranscribe_running ui s.dlg hrun, Option.map_some',
        Option.some.injEq] at hstep
      rw [← hstep]
    have h2 := runEvents_stays_stopping events s1 s2 h1 hall hev
    simp only [encoderBeginCallback, h1, h2, and_self]
  · intro s s2 events h hall hev
    have h2 := runEvents_stays_stopping events s s2 h hall hev
    simp only [encoderBeginCallback, h2]

/-- C11 for a run in which the button is pressed, new segments arrive and the
button is pressed again: the callback answers `S_FALSE` from the first press
on. -/
theorem C11_encoder_begin_response_witness :
    encoderBeginCallback runningDlg = S_OK ∧
      (∃ s1 s2 : Session,
        step { dlg := runningDlg, completed := 0 } (Event.press someInput) = some s1 ∧
        runEvents s1 [Event.newSegments twoSegmentResult 1, Event.press someInput] = some s2 ∧
        encoderBeginCallback s1.dlg = S_FALSE ∧ encoderBeginCallback s2.dlg = S_FALSE) :=
  ⟨by decide,
    { dlg := { runningDlg with visualState := eVisualState.Stopping, buttonEnabled := false },
      completed := 0 },
    { dlg := newSegmentCallback twoSegmentResult 1
        { runningDlg with visualState := eVisualState.Stopping, buttonEnabled := false },
      completed := 0 },
    by decide, by decide,
    C11_encoder_begin_response.2.2.1 { dlg := runningDlg, completed := 0 } _ _ someInput
      [Event.newSegments twoSegmentResult 1, Event.press someInput]
      (by decide) (by decide) (by decide) (by decide)⟩


/-- C12: a press of the button in `Idle` with an empty media path, or with a
media file that does not exist, or with a format other than `None` and an
empty output path, returns with the state still `Idle`, nothing posted and
the dialog not pending. -/
theorem C12_start_validation (ui : UiInput) (st : Dlg)
    (hidle : st.visualState = eVisualState.Idle)
    (hbad : ui.sourceMediaPath.length = 0 ∨ ui.mediaExists = false ∨
      ((ui.outFormatSel % 256).toNat ≠ eOutputFormat.None ∧ ui.outputPath.length = 0)) :
    ∃ st1 : Dlg, onTranscribe ui st = some st1 ∧
      st1.visualState = eVisualState.Idle ∧ st1.posted = st.posted ∧
      st1.pending = st.pending ∧ st1.buttonText = st.buttonText := by
  have hsw : stopSwitch st = none := by simp [stopSwitch, hidle]
  simp only [onTranscribe, hsw, startRun]
  by_cases h1 : ui.sourceMediaPath.length ≤ 0
  · rw [if_pos h1]
    exact ⟨_, rfl, by simp [transcribeError, hidle]⟩
  · rw [if_neg h1]
    by_cases h2 : ui.mediaExists = true
    · rw [if_neg (by simpa using h2)]
      by_cases h3 : ui.invalidTranslate = true
      · rw [if_pos h3]
        exact ⟨_, rfl, by simp [hidle]⟩
      · rw [if_neg h3]
        have h4 : (ui.outFormatSel % 256).toNat ≠ eOutputFormat.None ∧
            ui.outputPath.length = 0 := by
          rcases hbad with h | h | h
          · omega
          · rw [h] at h2; exact absurd h2 (by decide)
          · exact h
        rw [if_pos h4.1, if_pos (by simp [h4.2])]
        exact ⟨_, rfl, by simp [transcribeError, hidle]⟩
    · rw [if_pos (by simpa using h2)]
      exact ⟨_, rfl, by simp [transcribeError, hidle]⟩

/-- C12 for a press with no media path and the SubRip format selected: the
request is rejected with a message. -/
theorem C12_start_validation_witness :
    idleDlg.visualState = eVisualState.Idle ∧
      (∃ st1 : Dlg, onTranscribe badInput idleDlg = some st1 ∧
        st1.visualState = eVisualState.Idle ∧ st1.posted = idleDlg.posted ∧
        st1.pending = idleDlg.pending ∧ st1.buttonText = idleDlg.buttonText) ∧
      (onTranscribe badInput idleDlg).map (fun d => d.errors)
        = some ["Please select an input audio file"] :=
  ⟨by decide, C12_start_validation badInput idleDlg (by decide) (Or.inl (by decide)), by decide⟩

/-- A press of the button posts a work item only from `Idle`, and the state is
then `Running`; otherwise it posts nothing, and from `Idle` it leaves the
state `Idle`. -/
theorem onTranscribe_posts (ui : UiInput) (st st1 : Dlg) (h : onTranscribe ui st = some st1) :
    (st1.posted = st.posted ∧
        (st.visualState = eVisualState.Idle → st1.visualState = eVisualState.Idle) ∧
        (st.visualState ≠ eVisualState.Idle → st1.visualState ≠ eVisualState.Idle)) ∨
      (st.visualState = eVisualState.Idle ∧ st1.visualState = eVisualState.Running ∧
        st1.posted = st.posted + 1) := by
  cases hv : st.visualState with
  | Idle =>
    have hsw : stopSwitch st = none := by simp [stopSwitch, hv]
    simp only [onTranscribe, hsw] at h
    rcases startRun_state ui st st1 hv h with ⟨a, b⟩ | ⟨a, b⟩
    · left; exact ⟨b, fun _ => a, fun hne => absurd rfl hne⟩
    · right; exact ⟨rfl, a, b⟩
  | Running =>
    rw [onTranscribe_running ui st hv, Option.some.injEq] at h
    left; rw [← h]; simp
  | Stopping =>
    rw [onTranscribe_stopping ui st hv, Option.some.injEq] at h
    left; rw [← h]; simp [hv]

/-- Every step keeps the single-in-flight invariant, and a step that posts a
work item starts in `Idle`, ends in `Running` and posts exactly one. -/
theorem step_singleInFlight (s s1 : Session) (e : Event)
    (hinv : singleInFlight s) (hstep : step s e = some s1) :
    singleInFlight s1 ∧
      (s1.dlg.posted ≠ s.dlg.posted →
        s.dlg.visualState = eVisualState.Idle ∧ s1.dlg.visualState = eVisualState.Running ∧
          s1.dlg.posted = s.dlg.posted + 1 ∧ s.inFlight = 0 ∧ s1.inFlight = 1) := by
  obtain ⟨i1, i2, i3⟩ := hinv
  simp only [Session.inFlight] at i2 i3
  cases e with
  | press ui =>
    simp only [step] at hstep
    cases ht : onTranscribe ui s.dlg with
    | none => rw [ht] at hstep; exact absurd hstep (by simp)
    | some d =>
      rw [ht, Option.map_some', Option.some.injEq] at hstep
      subst hstep
      simp only [singleInFlight, Session.inFlight]
      rcases onTranscribe_posts ui s.dlg d ht with ⟨a, b, c⟩ | ⟨a, b, c⟩
      · refine ⟨⟨by omega, by omega, ?_⟩, fun hne => absurd a hne⟩
        rw [a]
        constructor
        · intro hd
          by_contra hcon
          have : s.dlg.visualState ≠ eVisualState.Idle := fun hi => hcon (i3.mp hi)
          exact c this hd
        · intro h0
          exact b (i3.mpr h0)
      · have h0 := i3.mp a
        refine ⟨⟨by omega, by omega, ?_⟩, fun _ => ⟨a, b, c, h0, by omega⟩⟩
        rw [b, c]
        constructor
        · intro hd; exact absurd hd (by decide)
        · intro hd; omega
  | newSegments result n_new =>
    simp only [step, Session.inFlight] at hstep
    split_ifs at hstep with hfl
    simp only [Option.some.injEq] at hstep
    subst hstep
    obtain ⟨a, b⟩ := newSegmentCallback_run_state result n_new s.dlg
    simp only [singleInFlight, Session.inFlight]
    refine ⟨⟨by omega, by omega, ?_⟩, fun hne => absurd a hne⟩
    rw [a]
    have hnot : s.dlg.visualState ≠ eVisualState.Idle := fun hi => by
      have := i3.mp hi
      omega
    constructor
    · intro hd
      rcases b with b | b
      · rw [b] at hd; exact absurd hd hnot
      · rw [b] at hd; exact absurd hd (by decide)
    · intro h0; omega
  | completion o =>
    simp only [step, Session.inFlight] at hstep
    split_ifs at hstep with hfl
    simp only [Option.some.injEq] at hstep
    subst hstep
    obtain ⟨a, b⟩ := onCallbackStatus_state o s.dlg
    simp only [singleInFlight, Session.inFlight]
    refine ⟨⟨by omega, by omega, ?_⟩, fun hne => absurd b hne⟩
    rw [a, b]
    constructor
    · intro _; omega
    · intro _; rfl

theorem runEvents_singleInFlight :
    ∀ (events : List Event) (s s1 : Session),
      singleInFlight s → runEvents s events = some s1 → singleInFlight s1 := by
  intro events
  induction events with
  | nil =>
    intro s s1 h hrun
    simp only [runEvents, Option.some.injEq] at hrun
    rw [← hrun]; exact h
  | cons e rest ih =>
    intro s s1 h hrun
    simp only [runEvents] at hrun
    cases hs : step s e with
    | none => rw [hs] at hrun; exact absurd hrun (by simp)
    | some s2 =>
      rw [hs] at hrun
      exact ih s2 s1 (step_singleInFlight s s2 e h hs).1 hrun

/-- C13: from a dialog at rest (`Idle`, every posted run ended), after any
sequence of button presses, segment callbacks during a run and run
completions, at most one run is in flight and the state is `Idle` exactly when
none is; a further step that posts a work item starts in `Idle` with no run
in flight, ends in `Running` with one, and posts exactly one; and a completion
ends in `Idle`, from `Running` and from `Stopping`, whatever the outcome. -/
theorem C13_single_in_flight (s0 s : Session) (events : List Event)
    (hidle : s0.dlg.visualState = eVisualState.Idle)
    (hnone : s0.completed = s0.dlg.posted)
    (hrun : runEvents s0 events = some s) :
    (s.completed ≤ s.dlg.posted ∧ s.inFlight ≤ 1 ∧
      (s.dlg.visualState = eVisualState.Idle ↔ s.inFlight = 0)) ∧
    (∀ (e : Event) (s1 : Session), step s e = some s1 →
      s1.dlg.posted ≠ s.dlg.posted →
        s.dlg.visualState = eVisualState.Idle ∧ s1.dlg.visualState = eVisualState.Running ∧
          s1.dlg.posted = s.dlg.posted + 1 ∧ s.inFlight = 0 ∧ s1.inFlight = 1) ∧
    (∀ (o : RunOutcome) (s1 : Session), step s (Event.completion o) = some s1 →
      s1.dlg.visualState = eVisualState.Idle ∧ s1.inFlight = 0) := by
  have h0 : singleInFlight s0 := by
    simp only [singleInFlight, Session.inFlight, hnone, hidle]
    simp
  have hs := runEvents_singleInFlight events s0 s h0 hrun
  refine ⟨hs, fun e s1 hstep => (step_singleInFlight s s1 e hs hstep).2, ?_⟩
  intro o s1 hstep
  obtain ⟨⟨_, _, k3⟩, _⟩ := step_singleInFlight s s1 (Event.completion o) hs hstep
  have hi : s1.dlg.visualState = eVisualState.Idle := by
    simp only [step] at hstep
    split_ifs at hstep
    simp only [Option.some.injEq] at hstep
    rw [← hstep]
    exact (onCallbackStatus_state o s.dlg).1
  exact ⟨hi, k3.mp hi⟩

/-- C13 for a session in which a run is started, new segments arrive, the
button is pressed to stop, and the run ends: after the first two events one
run is in flight and the state is `Running`, and the invariant holds there;
after all four the one run posted has ended and the dialog is `Idle` again. -/
theorem C13_single_in_flight_witness :
    idleSession.dlg.visualState = eVisualState.Idle ∧
      idleSession.completed = idleSession.dlg.posted ∧
      runEvents idleSession [Event.press someInput, Event.newSegments twoSegmentResult 1]
        = some { dlg := { runningDlg with app := { currentResult := "b",
                                                   duplicatedResults := [],
                                                   duplicatedSecond := 0 } },
                 completed := 0 } ∧
      ((0 : Nat) ≤ 1 ∧
        Session.inFlight { dlg := { runningDlg with app := { currentResult := "b",
                                                             duplicatedResults := [],
                                                             duplicatedSecond := 0 } },
                           completed := 0 } ≤ 1 ∧
        (eVisualState.Running = eVisualState.Idle ↔
          Session.inFlight { dlg := { runningDlg with app := { currentResult := "b",
                                                               duplicatedResults := [],
                                                               duplicatedSecond := 0 } },
                             completed := 0 } = 0)) ∧
      (runEvents idleSession
          [Event.press someInput, Event.newSegments twoSegmentResult 1, Event.press someInput,
            Event.completion someOutcome]).map
        (fun s => (s.dlg.visualState, s.dlg.posted, s.completed))
        = some (eVisualState.Idle, 1, 1) :=
  ⟨by decide, by decide, by decide,
    (C13_single_in_flight idleSession
      { dlg := { runningDlg with app := { currentResult := "b", duplicatedResults := [],
                                          duplicatedSecond := 0 } },
        completed := 0 }
      [Event.press someInput, Event.newSegments twoSegmentResult 1]
      (by decide) (by decide) (by decide)).1,
    by decide⟩

end TranscribeDlg
